import Mathlib

/-!
# nycmonkey/filings: a shallow embedding of the filing index

The Go package `filings` (index.go, objectStore.go, formD.go) and the
post-processing of `cmd/processFilings/main.go`, as Lean definitions.

Conventions of the embedding.

* A Go `string` is a Lean `String` (a sequence of code points, that is valid
  UTF-8 text); where the code counts or cuts bytes (`len`, `id[0:2]`) and in
  file paths it is the byte sequence `utf8 s`.
* A Go `error` is a `GoError`; `nil` is `none`.
* A Go call that can panic returns a `Res`: `Res.ret v` or `Res.panic msg`.
* The file system, the catalog table, the remote archive and the handler's
  closure state are passed explicitly.
* Functions of other packages are parameters, the fields of `Env`: the
  functions of `path/filepath`, the faults of `os.MkdirAll`, `os.Create` and
  `io.Copy`, SHA-256, the XML decoder, and what SQLite and its driver make of
  a value of the `DATE` column. The Unicode tables above U+007F are the fields
  of `RuneTables`. The SQL statements and the regular expressions of the
  source are embedded by what they compute.
-/

set_option autoImplicit false
set_option maxRecDepth 100000

namespace Filings

/-! ## Errors and panics -/

/-- Go `error` values the package produces or passes on. -/
inductive GoError where
  /-- An `errors.New(msg)` value. -/
  | errorsNew (msg : String)
  /-- The sentinel `sql.ErrNoRows`. -/
  | ErrNoRows
  /-- An error reported by the SQLite driver. -/
  | sqlite (msg : String)
  /-- An error of package `os` (a `*PathError`). -/
  | os (msg : String)
  /-- An error of `net/http` (transport failure). -/
  | http (msg : String)
  /-- An error of `encoding/xml`. -/
  | xml (msg : String)
  /-- An error of the writer under a `csv.Writer`. -/
  | csv (msg : String)
  deriving DecidableEq, Repr

/-- Outcome of a Go call: it returns a value or it panics. -/
inductive Res (α : Type) where
  | ret (a : α)
  | panic (msg : String)
  deriving DecidableEq, Repr

/-- Sequencing of calls: a panic propagates. -/
def Res.bind {α β : Type} (r : Res α) (k : α → Res β) : Res β :=
  match r with
  | .ret a => k a
  | .panic m => .panic m

/-- `errObjectIDTooShort` of index.go. -/
def errObjectIDTooShort : GoError :=
  .errorsNew "objectID must be more than two characters"

/-! ## formD.go -/

structure Address where
  Street1 : String
  City : String
  StateAbbr : String
  State : String
  ZIP : String
  deriving DecidableEq, Repr

structure Name where
  First : String
  Last : String
  deriving DecidableEq, Repr

structure Issuer where
  CIK : String
  Name : String
  Address : Address
  Phone : String
  PreviousNames : String
  EntityType : String
  YearOfIncorporation : String
  deriving DecidableEq, Repr

structure Offering where
  Industry : String
  SignatoryName : String
  SignatoryTitle : String
  deriving DecidableEq, Repr

structure Person where
  Name : Name
  Address : Address
  Relationships : List String
  deriving DecidableEq, Repr

structure FormDSubmission where
  Issuer : Issuer
  RelatedPeople : List Person
  Offering : Offering
  deriving DecidableEq, Repr

/-- A `csv.Writer`, seen through the records handed to it. `budget = none` is
a writer that never fails; `budget = some n` accepts `n` more records and then
fails. -/
structure CsvWriter where
  records : List (List String)
  budget : Option Nat
  deriving DecidableEq, Repr

/-- `w.Write(record)` of `encoding/csv`. -/
def CsvWriter.Write (w : CsvWriter) (record : List String) : CsvWriter × Option GoError :=
  match w.budget with
  | none => ({ w with records := w.records ++ [record] }, none)
  | some 0 => (w, some (.csv "write failed"))
  | some (n + 1) => ({ records := w.records ++ [record], budget := some n }, none)

/-- `strings.Join(elems, sep)`. -/
def stringsJoin (elems : List String) (sep : String) : String :=
  sep.intercalate elems

/-- The record `ToCSV` writes for one related person (formD.go line 59). -/
def csvRecord (d : FormDSubmission) (p : Person) : List String :=
  [d.Issuer.CIK, d.Issuer.Name, d.Issuer.EntityType, d.Offering.Industry,
   p.Name.First, p.Name.Last, stringsJoin p.Relationships ", ",
   p.Address.Street1, p.Address.City, p.Address.State, p.Address.ZIP]

/-- The `for _, p := range d.RelatedPeople` loop of `ToCSV`: write, return on
the first error. -/
def ToCSV.loop (d : FormDSubmission) : List Person → CsvWriter → CsvWriter × Option GoError
  | [], w => (w, none)
  | p :: ps, w =>
    match w.Write (csvRecord d p) with
    | (w', some err) => (w', some err)
    | (w', none) => ToCSV.loop d ps w'

/-- `func (d FormDSubmission) ToCSV(w *csv.Writer) (err error)`. -/
def FormDSubmission.ToCSV (d : FormDSubmission) (w : CsvWriter) : CsvWriter × Option GoError :=
  ToCSV.loop d d.RelatedPeople w

/-- The record `FormDHeadingsToCSV` writes. -/
def formDHeadings : List String :=
  ["CIK", "Company Name", "Legal Form", "Industry", "Key Person First Name",
   "Key Person Last Name", "Key Person Role(s)", "Key Person Street 1",
   "Key Person City", "Key Person State", "Key Person Zip"]

/-- `func FormDHeadingsToCSV(w *csv.Writer) error`. -/
def FormDHeadingsToCSV (w : CsvWriter) : CsvWriter × Option GoError :=
  w.Write formDHeadings

/-! ## Values -/

/-- Raw content: a sequence of bytes. -/
abbrev Bytes := List UInt8

/-- The bytes of a Go string: its UTF-8 form. `len(s)` is `(utf8 s).length`. -/
def utf8 (s : String) : Bytes :=
  s.data.flatMap String.utf8EncodeChar

/-- A value as SQLite stores it in the `filed_on` column: a number (an INTEGER
or a REAL, given by its exact value; the infinities are left out) or a TEXT. -/
inductive SqlValue where
  | number (q : ℚ)
  | text (s : String)
  deriving DecidableEq, Repr

/-! ## objectStore.go -/

/-- The file system under the data directory: the regular files, by path, in
creation order. Directories are implicit. -/
abbrev FileSys := List (Bytes × Bytes)

/-- Content of the regular file at `path`, if there is one. -/
def FileSys.read (fsys : FileSys) (path : Bytes) : Option Bytes :=
  (fsys.find? (fun e => e.1 = path)).map (fun e => e.2)

/-- The file at `path` is truncated or created and receives `data`. -/
def FileSys.write (fsys : FileSys) (path : Bytes) (data : Bytes) : FileSys :=
  if fsys.any (fun e => e.1 = path) then
    fsys.map (fun e => if e.1 = path then (path, data) else e)
  else fsys ++ [(path, data)]

/-- Functions of other packages that the code calls. -/
structure Env where
  /-- `filepath.Join(elem...)`. -/
  filepathJoin : List Bytes → Bytes
  /-- `filepath.Dir(path)`. -/
  filepathDir : Bytes → Bytes
  /-- The error of `os.MkdirAll(dir, perm)`, if it fails. -/
  osMkdirAll : Bytes → Option GoError
  /-- The error of `os.Create(path)`, if it fails. -/
  osCreate : Bytes → Option GoError
  /-- The fault of `io.Copy(f, data)` into the file at the path, if it fails:
  the number of bytes written before the error, and the error. -/
  ioCopy : Bytes → Bytes → Option (Nat × GoError)
  /-- `hex.EncodeToString` of the SHA-256 digest of the bytes. -/
  sha256Hex : Bytes → String
  /-- `xml.NewDecoder(r).Decode(d)` on a fragment: the decoded value and the error. -/
  xmlDecode : Bytes → FormDSubmission × Option GoError
  /-- What SQLite stores when a text is bound to the `filed_on` column, declared
  `DATE` and so of NUMERIC affinity: a well-formed numeric literal becomes the
  number, any other text stays TEXT. -/
  numericAffinity : String → SqlValue
  /-- What `rows.Scan` puts into a Go string for a value of the `filed_on`
  column: the driver reads a column declared `DATE` as a `time.Time`, which
  `database/sql` formats as RFC 3339. -/
  scanDate : SqlValue → String

/-- The Go slice expression `s[0:hi]` on the bytes of a string: it panics when
`hi` exceeds `len(s)`. -/
def sliceTo (s : Bytes) (hi : Nat) : Res Bytes :=
  if s.length < hi then .panic "slice bounds out of range"
  else .ret (s.take hi)

/-- `type fileStore struct`. -/
structure fileStore where
  dataDir : String
  deriving DecidableEq, Repr

/-- `func (fs fileStore) objectPath(bucket, id string) (path string, err error)`
(objectStore.go lines 24-29). The assignment to `err` on line 26 is followed
by no `return`; line 28 evaluates `id[0:2]` and returns a `nil` error. -/
def fileStore.objectPath (env : Env) (fs : fileStore) (bucket id : String) :
    Res (Bytes × Option GoError) :=
  let _err : Option GoError := if (utf8 id).length < 2 then some errObjectIDTooShort else none
  (sliceTo (utf8 id) 2).bind fun head =>
    .ret (env.filepathJoin [utf8 fs.dataDir, utf8 bucket, head, utf8 id], none)

/-- `func (fs fileStore) Put(bucket, objectID string, data io.ReadCloser) (err error)`
(objectStore.go lines 31-48): it returns on the error of `objectPath`, of
`os.MkdirAll` and of `os.Create`; `os.Create` truncates the file, and an
`io.Copy` that fails leaves in it the bytes written so far. -/
def fileStore.Put (env : Env) (fs : fileStore) (fsys : FileSys) (bucket objectID : String)
    (data : Bytes) : Res (FileSys × Option GoError) :=
  (fs.objectPath env bucket objectID).bind fun r =>
    match r.2 with
    | some err => .ret (fsys, some err)
    | none =>
      match env.osMkdirAll (env.filepathDir r.1) with
      | some err => .ret (fsys, some err)
      | none =>
        match env.osCreate r.1 with
        | some err => .ret (fsys, some err)
        | none =>
          match env.ioCopy r.1 data with
          | some fault => .ret (fsys.write r.1 (data.take fault.1), some fault.2)
          | none => .ret (fsys.write r.1 data, none)

/-- `func (fs fileStore) Exists(bucket, objectID string) bool`. -/
def fileStore.Exists (env : Env) (fs : fileStore) (fsys : FileSys) (bucket objectID : String) :
    Res Bool :=
  (fs.objectPath env bucket objectID).bind fun r =>
    match r.2 with
    | some _ => .ret false
    | none =>
      match fsys.read r.1 with
      | none => .ret false
      | some content => .ret (decide (0 < content.length))

/-- `func (fs fileStore) Get(bucket, objectID string) (obj io.ReadCloser, err error)`:
the content `os.Open(path)` gives access to, or its error. -/
def fileStore.Get (env : Env) (fs : fileStore) (fsys : FileSys) (bucket objectID : String) :
    Res (Bytes × Option GoError) :=
  (fs.objectPath env bucket objectID).bind fun r =>
    match r.2 with
    | some err => .ret ([], some err)
    | none =>
      match fsys.read r.1 with
      | none => .ret ([], some (.os "no such file or directory"))
      | some content => .ret (content, none)

/-! ## index.go: the catalog -/

/-- `type Filing struct` of index.go. -/
structure Filing where
  FiledOn : String
  CIK : String
  FormType : String
  Hash : String
  Source : String
  deriving DecidableEq, Repr

/-- A row of table `filings`, as stored. The `id` column (autoincrement) is
read by no statement of the package and is left out. `Put` binds Go strings:
the columns of TEXT affinity hold them as they are, `filed_on`, declared
`DATE`, holds what NUMERIC affinity makes of the text. -/
structure Row where
  cik : String
  filed_on : SqlValue
  content_sha256 : String
  form : String
  source_path : String
  deriving DecidableEq, Repr

/-- The database handle `i.db` with the prepared insert: the rows of `filings`
in insertion order, and whether `Close` was called. -/
structure DB where
  filings : List Row
  closed : Bool
  deriving DecidableEq, Repr

/-- The error of a statement on a closed handle. -/
def errClosed : GoError := .sqlite "sql: database is closed"

/-- `checkExistsSQL` (index.go line 40):
`SELECT 'content_sha256' FROM 'filings' WHERE 'source_path' = ?`.
SQLite reads a single-quoted token as a string literal wherever an expression
may stand, so the result column and the left operand of `=` are the literals
`'content_sha256'` and `'source_path'`, not the columns of those names; only
`FROM 'filings'`, where no literal may stand, names the table. One result row
per row of the table for which the literal equals the parameter. -/
def checkExistsSQL (filings : List Row) (p1 : String) : List String :=
  (filings.filter (fun _ => "source_path" = p1)).map (fun _ => "content_sha256")

/-- `i.db.QueryRow(checkExistsSQL, remotePath).Scan(&hash)`: the first result
row goes to `hash`; with no row `hash` keeps its zero value and the error is
`sql.ErrNoRows`. -/
def DB.lookup (db : DB) (remotePath : String) : String × Option GoError :=
  if db.closed then ("", some errClosed)
  else
    match checkExistsSQL db.filings remotePath with
    | [] => ("", some .ErrNoRows)
    | hash :: _ => (hash, none)

/-- The prepared statement of `NewIndex` (line 286),
`INSERT INTO filings(cik, filed_on, content_sha256, form, source_path) values(?,?,?,?,?)`,
under the table's `UNIQUE` constraint on `source_path`. -/
def DB.insrtExec (env : Env) (db : DB) (cik filed_on hash form remotePath : String) :
    DB × Option GoError :=
  if db.closed then (db, some errClosed)
  else if db.filings.any (fun r => r.source_path = remotePath) then
    (db, some (.sqlite "UNIQUE constraint failed: filings.source_path"))
  else
    ({ db with filings := db.filings ++
        [⟨cik, env.numericAffinity filed_on, hash, form, remotePath⟩] }, none)

/-- SQLite's `LIKE` on TEXT, pattern first: `%` stands for any run of
characters, `_` for any one character, and other characters compare without
regard to ASCII case. -/
def sqlLike : List Char → List Char → Bool
  | [], s => s.isEmpty
  | c :: p, s =>
    if c = '%' then s.tails.any (fun t => sqlLike p t)
    else
      match s with
      | [] => false
      | d :: s' =>
        (c = '_' || c = d || (c.toNat < 128 && d.toNat < 128 && c.toLower = d.toLower))
          && sqlLike p s'

/-- SQLite's order of stored values: numbers by value, every number before
every TEXT, TEXT by bytes (on UTF-8 text the lexicographic order of the code
points). -/
def SqlValue.le : SqlValue → SqlValue → Bool
  | .number a, .number b => decide (a ≤ b)
  | .number _, .text _ => true
  | .text _, .number _ => false
  | .text a, .text b => decide (a.data ≤ b.data)

/-- SQLite's `MAX` over the values `v :: vs`: the greatest in its order. -/
def sqlMax (v : SqlValue) (vs : List SqlValue) : SqlValue :=
  vs.foldl (fun m w => if SqlValue.le m w then w else m) v

/-- The result columns `f.cik, f.form, f.filed_on, f.content_sha256, f.source_path`
as `rows.Scan` of `MostRecentOfType` stores them in the strings of a `Filing`
(lines 223, 228). -/
def Row.toFiling (env : Env) (f : Row) : Filing :=
  { FiledOn := env.scanDate f.filed_on, CIK := f.cik, FormType := f.form,
    Hash := f.content_sha256, Source := f.source_path }

/-- The sub-select `x` of `latestFormQuery`:
`SELECT cik, MAX(filed_on) as MaxFiledOn FROM filings WHERE form LIKE ? GROUP BY cik`.
SQLite forms the groups by sorting on `cik`: they come in the byte order of
`cik`. -/
def latestFormQuery.x (filings : List Row) (p1 : String) : List (String × SqlValue) :=
  let matched := filings.filter (fun r => sqlLike p1.data r.form.data)
  ((matched.map (fun r => r.cik)).dedup.insertionSort (fun a b => a.data ≤ b.data)).filterMap
    fun c =>
      match (matched.filter (fun r => r.cik = c)).map (fun r => r.filed_on) with
      | [] => none
      | v :: vs => some (c, sqlMax v vs)

/-- `latestFormQuery` (index.go lines 41-48): the sub-select joined with
`filings f on f.cik = x.cik and f.filed_on = x.MaxFiledOn and f.form LIKE ?`,
projected on `f.cik, f.form, f.filed_on, f.content_sha256, f.source_path` and
scanned. SQL fixes no order of the result rows; SQLite yields them group by
group of `x`, the rows of a group in table order. -/
def latestFormQuery (env : Env) (filings : List Row) (p1 p2 : String) : List Filing :=
  (latestFormQuery.x filings p1).flatMap fun g =>
    (filings.filter (fun f =>
        f.cik = g.1 ∧ f.filed_on = g.2 ∧ sqlLike p2.data f.form.data)).map (Row.toFiling env)

/-- `i.db.Query(latestFormQuery, form+"%", form+"%")`: the rows, each with the
outcome of its `rows.Scan` (five columns into strings: no scan error). -/
def DB.Query (env : Env) (db : DB) (p1 p2 : String) :
    Except GoError (List (Except GoError Filing)) :=
  if db.closed then .error errClosed
  else .ok ((latestFormQuery env db.filings p1 p2).map .ok)

/-! ## index.go: ingestion -/

/-- Outcome of `http.Get(url)`: a transport error, or a response whose body
arrives in chunks (one per `Read`) and ends in EOF (`bodyErr = none`) or in a
read error. -/
inductive HttpResult where
  | failed (err : GoError)
  | response (StatusCode : Nat) (Status : String) (Body : List Bytes) (bodyErr : Option GoError)
  deriving DecidableEq, Repr

/-- The remote archive: what a GET of each URL yields. -/
abbrev Remote := String → HttpResult

/-- `type FilingIndex struct`; the database handle lives in `State`. -/
structure FilingIndex where
  store : fileStore
  baseURL : String
  deriving DecidableEq, Repr

/-- What `Put` reads and changes: the files of the store and the catalog. -/
structure State where
  fsys : FileSys
  db : DB
  deriving DecidableEq, Repr

/-- `func (i FilingIndex) bucketFor(cik, form, filed_on string) string`. -/
def FilingIndex.bucketFor (_i : FilingIndex) (_cik _form _filed_on : String) : String :=
  "edgar"

/-- `ioutil.ReadAll(io.TeeReader(resp.Body, io.MultiWriter(&buf, h)))` (lines
246-250): each chunk read from the body is written to the buffer and to the
hash. The pair is (content of `buf`, bytes written to `h`). -/
def teeReadAll : List Bytes → Bytes × Bytes → Bytes × Bytes
  | [], acc => acc
  | chunk :: rest, acc => teeReadAll rest (acc.1 ++ chunk, acc.2 ++ chunk)

/-- `func (i FilingIndex) fetchFiling(remotePath string) (data io.ReadCloser, hash string, err error)`.
`data` is the content of the buffer (empty where Go returns a `nil` reader). -/
def FilingIndex.fetchFiling (env : Env) (net : Remote) (i : FilingIndex) (remotePath : String) :
    Bytes × String × Option GoError :=
  match net (i.baseURL ++ remotePath) with
  | .failed err => ([], "", some err)
  | .response StatusCode Status Body bodyErr =>
    if StatusCode ≠ 200 then
      ([], "", some (.errorsNew ("unexpected response code while fetching data: " ++ Status)))
    else
      let r := teeReadAll Body ([], [])
      match bodyErr with
      | some err => ([], "", some err)
      | none => (r.1, env.sha256Hex r.2, none)

/-- Lines 90-117 of `Put`: what follows the lookup of line 89, whose outcome
`(hash, err)` is `q`. Returns the state after the call and the error. -/
def FilingIndex.Put.afterLookup (env : Env) (net : Remote) (i : FilingIndex) (st : State)
    (cik remotePath form filed_on : String) (q : String × Option GoError) :
    Res (State × Option GoError) :=
  let bucket := i.bucketFor cik form filed_on
  let hash := q.1
  let err := q.2
  if err ≠ none ∧ err ≠ some .ErrNoRows then .ret (st, err)
  else if err = none then
    (i.store.Exists env st.fsys bucket hash).bind fun found =>
      if found then .ret (st, none)
      else
        let r := i.fetchFiling env net remotePath
        let data := r.1
        let hash2 := r.2.1
        if r.2.2 ≠ none then .ret (st, r.2.2)
        else if hash ≠ hash2 then
          .ret (st, some (.errorsNew
            ("Expected hash of " ++ remotePath ++ " to be " ++ hash ++ ", but got " ++ hash2)))
        else
          (i.store.Put env st.fsys bucket hash data).bind fun w =>
            .ret ({ st with fsys := w.1 }, w.2)
  else
    let r := i.fetchFiling env net remotePath
    let data := r.1
    let hash := r.2.1
    if r.2.2 ≠ none then .ret (st, r.2.2)
    else
      (i.store.Put env st.fsys bucket hash data).bind fun w =>
        if w.2 ≠ none then .ret ({ st with fsys := w.1 }, w.2)
        else
          let e := st.db.insrtExec env cik filed_on hash form remotePath
          .ret ({ fsys := w.1, db := e.1 }, e.2)

/-- `func (i FilingIndex) Put(cik, remotePath, form, filed_on string) (err error)`
(index.go lines 86-118): the lookup of line 89, then the rest. -/
def FilingIndex.Put (env : Env) (net : Remote) (i : FilingIndex) (st : State)
    (cik remotePath form filed_on : String) : Res (State × Option GoError) :=
  FilingIndex.Put.afterLookup env net i st cik remotePath form filed_on
    (st.db.lookup remotePath)

/-- `func (i FilingIndex) Close() error`. -/
def FilingIndex.Close (st : State) : State × Option GoError :=
  ({ st with db := { st.db with closed := true } }, none)

/-! ## index.go: Form D -/

/-- The byte sequences one literal character of a `(?i)` pattern matches: the
character and its simple case foldings (`s` and `k` fold to U+017F and U+212A
as well). -/
def foldAlternatives (c : Char) : List Bytes :=
  let b (x : Char) : Bytes := [x.toNat.toUInt8]
  if c.isAlpha then
    [b c.toLower, b c.toUpper] ++
      (if c.toLower = 's' then [[0xC5, 0xBF]]
       else if c.toLower = 'k' then [[0xE2, 0x84, 0xAA]] else [])
  else [b c]

/-- Match a literal (ASCII) pattern text at the head of the input, without
regard to case: the input after the match. -/
def matchLiteral : List Char → Bytes → Option Bytes
  | [], s => some s
  | c :: cs, s =>
    (foldAlternatives c).findSome? fun alt =>
      if alt.isPrefixOf s then matchLiteral cs (s.drop alt.length) else none

/-- Match `<edgarSubmission>.+</edgarSubmission>` at the head of the input
under the flags `is`: the opening tag, at least one character, and the last
closing tag that follows (`.+` is greedy and matches newlines). The result is
the matched text. -/
def formDPattern.matchHere (s : Bytes) : Option Bytes :=
  match matchLiteral "<edgarSubmission>".data s with
  | none => none
  | some r =>
    let ends := (List.range r.length).filterMap fun j =>
      if 1 ≤ j then (matchLiteral "</edgarSubmission>".data (r.drop j)).map (fun t => t.length)
      else none
    match ends.getLast? with
    | none => none
    | some left => some (s.take (s.length - left))

/-- `formDPattern.FindSubmatch(data)` for
`(?is:(<edgarSubmission>.+</edgarSubmission>))`: `nil` (here `[]`) without a
match, else the leftmost match and its one group, which is the whole match. -/
def formDPattern.FindSubmatch : Bytes → List Bytes
  | [] => []
  | b :: rest =>
    match formDPattern.matchHere (b :: rest) with
    | some m => [m, m]
    | none => formDPattern.FindSubmatch rest

/-- `func (i FilingIndex) ParseFormD(hash string) (d *FormDSubmission, err error)`
(index.go lines 124-143). The assignment to `err` on line 138 is followed by
no `return`; line 141 evaluates `m[1]`. -/
def FilingIndex.ParseFormD (env : Env) (i : FilingIndex) (fsys : FileSys) (hash : String) :
    Res (Option FormDSubmission × Option GoError) :=
  (i.store.Get env fsys "edgar" hash).bind fun r =>
    match r.2 with
    | some err => .ret (none, some err)
    | none =>
      let data := r.1
      let m := formDPattern.FindSubmatch data
      let _err : Option GoError :=
        if m.length < 2 then some (.errorsNew "unexpected format") else none
      match m.get? 1 with
      | none => .panic "index out of range [1] with length 0"
      | some fragment =>
        let dec := env.xmlDecode fragment
        .ret (some dec.1, dec.2)

/-! ## index.go: the streaming query -/

/-- `type filingHandler func(f *Filing, err error) (stop bool)`. A Go closure
may keep state between calls; `σ` is that state. -/
abbrev filingHandler (σ : Type) := σ → Option Filing → Option GoError → Bool × σ

/-- One invocation of the handler: its two arguments and the flag it returned. -/
structure Call where
  f : Option Filing
  err : Option GoError
  stop : Bool
  deriving DecidableEq, Repr

/-- The `for rows.Next()` loop of `MostRecentOfType` (lines 222-232). A row is
the outcome of `rows.Scan`: the scanned filing or the scan error. Returns the
handler's final state and the invocations made, in order. -/
def MostRecentOfType.loop {σ : Type} (h : filingHandler σ) :
    List (Except GoError Filing) → σ → σ × List Call
  | [], s => (s, [])
  | .error err :: _, s =>
    let r := h s none (some err)
    (r.2, [⟨none, some err, r.1⟩])
  | .ok f :: rest, s =>
    let r := h s (some f) none
    if r.1 then (r.2, [⟨some f, none, true⟩])
    else
      let t := MostRecentOfType.loop h rest r.2
      (t.1, ⟨some f, none, false⟩ :: t.2)

/-- The body of `MostRecentOfType` after `i.db.Query(...)` returned
`(rows, err)` (lines 217-232). -/
def MostRecentOfType.body {σ : Type} (h : filingHandler σ)
    (query : Except GoError (List (Except GoError Filing))) (s : σ) : σ × List Call :=
  match query with
  | .error err =>
    let r := h s none (some err)
    (r.2, [⟨none, some err, r.1⟩])
  | .ok rows => MostRecentOfType.loop h rows s

/-- `func (i FilingIndex) MostRecentOfType(form string, h filingHandler)`. -/
def FilingIndex.MostRecentOfType {σ : Type} (env : Env) (db : DB) (form : String)
    (h : filingHandler σ) (s : σ) : σ × List Call :=
  MostRecentOfType.body h (db.Query env (form ++ "%") (form ++ "%")) s

/-! ## cmd/processFilings/main.go: plain-text post-processing -/

/-- Unicode data the post-processing consults. -/
structure RuneTables where
  /-- The third rune of the first `case` of `isNoise` (a symbol of the block
  U+2600). -/
  noiseRune : Char
  /-- `unicode.In(r, unicode.L, unicode.Nd, unicode.Nl, unicode.Z, unicode.P)`
  for runes above U+007F. -/
  inLNdNlZP : Char → Bool

/-- The ASCII characters of category P (punctuation). -/
def asciiPunct : List Char :=
  ['!', '"', '#', '%', '&', Char.ofNat 39, '(', ')', '*', ',', '-', '.', '/', ':', ';',
   '?', '@', '[', '\\', ']', '_', '{', '}']

/-- `unicode.In(r, unicode.L, unicode.Nd, unicode.Nl, unicode.Z, unicode.P)`:
on ASCII the letters, the digits, the space and the punctuation. -/
def unicodeIn (tbl : RuneTables) (r : Char) : Bool :=
  if r.toNat < 128 then r.isAlpha || r.isDigit || r = ' ' || asciiPunct.contains r
  else tbl.inLNdNlZP r

/-- `isNoise` (main.go lines 33-41). -/
def isNoise (tbl : RuneTables) (r : Char) : Bool :=
  if r = '*' ∨ r = '_' ∨ r = tbl.noiseRune then true
  else if r = '(' ∨ r = ')' ∨ r = '.' ∨ r = ',' ∨ r = Char.ofNat 39 ∨ r = '"' ∨ r = '\n' ∨ r = '/'
    then false
  else !unicodeIn tbl r

/-- `letters.Match(line)` for `letters = regexp.MustCompile("[A-z]")`: some
character of the line lies in the range from `A` (U+0041) to `z` (U+007A). -/
def letters.Match (line : List Char) : Bool :=
  line.any fun c => decide ('A'.toNat ≤ c.toNat) && decide (c.toNat ≤ 'z'.toNat)

/-- `dropCR` of `bufio`: drop one trailing carriage return. -/
def dropCR (line : List Char) : List Char :=
  if line.getLast? = some '\r' then line.dropLast else line

/-- The tokens of a `bufio.Scanner` with the default `ScanLines`: `cur` is the
current line, reversed. -/
def scanLines.go : List Char → List Char → List (List Char)
  | [], cur => if cur = [] then [] else [dropCR cur.reverse]
  | c :: cs, cur =>
    if c = '\n' then dropCR cur.reverse :: scanLines.go cs [] else scanLines.go cs (c :: cur)

/-- The lines `scanner.Scan()` yields for a text (lines within the scanner's
token limit). -/
def scanLines (text : List Char) : List (List Char) :=
  scanLines.go text []

/-- `unicode.IsSpace`. -/
def isSpace (c : Char) : Bool :=
  [9, 10, 11, 12, 13, 32, 0x85, 0xA0, 0x1680, 0x2028, 0x2029, 0x202F, 0x205F, 0x3000].contains
      c.toNat
    || (decide (0x2000 ≤ c.toNat) && decide (c.toNat ≤ 0x200A))

/-- `bytes.Fields`: `cur` is the current field, reversed. -/
def bytesFields.go : List Char → List Char → List (List Char)
  | [], cur => if cur = [] then [] else [cur.reverse]
  | c :: cs, cur =>
    if isSpace c then
      (if cur = [] then bytesFields.go cs [] else cur.reverse :: bytesFields.go cs [])
    else bytesFields.go cs (c :: cur)

/-- `bytes.Fields(line)`: the maximal runs of non-space characters. -/
def bytesFields (line : List Char) : List (List Char) :=
  bytesFields.go line []

/-- `bytes.Join(s, sep)`. -/
def bytesJoin (s : List (List Char)) (sep : List Char) : List Char :=
  sep.intercalate s

/-- The slice `cleaned` of `makeHandler` (main.go lines 56-64): the text goes
through `transform.RemoveFunc(isNoise)`, is scanned line by line, and each line
that `letters` matches is kept with its fields joined by one space. -/
def makeHandler.cleaned (tbl : RuneTables) (plain : String) : List (List Char) :=
  (scanLines (plain.data.filter fun r => !isNoise tbl r)).filterMap fun line =>
    if letters.Match line then some (bytesJoin (bytesFields line) [' ']) else none

/-- The `Text` field `makeHandler` marshals (main.go line 69). -/
def makeHandler.text (tbl : RuneTables) (plain : String) : String :=
  ⟨bytesJoin (makeHandler.cleaned tbl plain) ['\n']⟩

/-! ## Definitions for the statements

The first three word the specification, for comparison with the code. -/

/-- The catalog's `lookupHash(sourceLocator)` as the specification words it:
the previously recorded hash of the locator, or not found. -/
def lookupHashSpec (filings : List Row) (sourceLocator : String) : Option String :=
  (filings.find? (fun r => r.source_path = sourceLocator)).map (fun r => r.content_sha256)

/-- A record "with the maximum filing date among matches for that entity":
its form matches the pattern and no record of the same entity whose form
matches has a later filing date. -/
def latestMatch (filings : List Row) (pattern : String) (r : Row) : Bool :=
  sqlLike pattern.data r.form.data &&
    filings.all fun g =>
      !(decide (g.cik = r.cik) && sqlLike pattern.data g.form.data)
        || SqlValue.le g.filed_on r.filed_on

/-- A line "contains a letter character": some character of it is a letter (on
ASCII, `A`-`Z` and `a`-`z`). -/
def containsLetter (line : List Char) : Bool :=
  line.any Char.isAlpha

/-- The rows up to and including the first one on which `p` holds. -/
def uptoFirst (p : Filing → Bool) : List Filing → List Filing
  | [] => []
  | r :: rest => if p r then [r] else r :: uptoFirst p rest

/-- ASCII text as bytes. -/
def asciiBytes (s : String) : Bytes :=
  s.data.map fun c => c.toNat.toUInt8

/-- Every blob of the store lies at the path of the digest of its bytes:
key = digest(bytes). -/
def StoreInv (env : Env) (store : fileStore) (fsys : FileSys) : Prop :=
  ∀ e ∈ fsys, store.objectPath env "edgar" (env.sha256Hex e.2) = .ret (e.1, none)

/-! ## Worked example: one locator of the archive -/

/-- Libraries for the worked examples, defined on the values the examples
use: paths of clean elements joined and split at `/`, no fault of the file
system, the SHA-256 digests of the contents "abc", "abd" and "ab", a decoder
that reports an error, the dates of the examples, written `YYYY-MM-DD`,
stored as TEXT (and a digit string as its number), and the stored dates
2020-01-01 and 2021-01-01 scanned as RFC 3339. -/
def exampleEnv : Env where
  filepathJoin := fun elems => [47].intercalate elems
  filepathDir := fun path => ((path.reverse.dropWhile (fun b => b ≠ 47)).drop 1).reverse
  osMkdirAll := fun _ => none
  osCreate := fun _ => none
  ioCopy := fun _ _ => none
  sha256Hex := fun b =>
    if b = asciiBytes "abc" then
      "ba7816bf8f01cfea414140de5dae2223b00361a396177a9cb410ff61f20015ad"
    else if b = asciiBytes "abd" then
      "a52d159f262b2c6ddb724a61840befc36eb30c88877a4030b65cbe86298449c9"
    else if b = asciiBytes "ab" then
      "fb8e20fc2e4c3f248c60c39bd652f3c1347298bb977b8b4d5903b85055620603"
    else "0000000000000000000000000000000000000000000000000000000000000000"
  xmlDecode := fun _ =>
    (⟨⟨"", "", ⟨"", "", "", "", ""⟩, "", "", "", ""⟩, [], ⟨"", "", ""⟩⟩, some (.xml "EOF"))
  numericAffinity := fun s =>
    if s.data ≠ [] ∧ s.data.length ≤ 18 ∧ s.data.all Char.isDigit then
      .number (s.data.foldl (fun n c => 10 * n + (c.toNat - 48)) 0 : Nat)
    else .text s
  scanDate := fun v =>
    if v = .text "2020-01-01" then "2020-01-01T00:00:00Z"
    else if v = .text "2021-01-01" then "2021-01-01T00:00:00Z"
    else ""

/-- The worked example's libraries when the disk is full: every `io.Copy`
fails after two bytes. -/
def diskFullEnv : Env :=
  { exampleEnv with ioCopy := fun _ _ => some (2, .os "no space left on device") }

/-- The index `NewIndex("data")` returns. -/
def exampleIndex : FilingIndex :=
  ⟨⟨"data"⟩, "https://www.sec.gov/Archives/"⟩

/-- An archive that serves `content` at `edgar/data/1/a.txt` and nothing else. -/
def exampleRemote (content : Bytes) : Remote := fun url =>
  if url = "https://www.sec.gov/Archives/edgar/data/1/a.txt" then
    .response 200 "200 OK" [content] none
  else .response 404 "404 Not Found" [] none

/-- A fresh index: no file, no row. -/
def emptyState : State :=
  ⟨[], ⟨[], false⟩⟩

/-- The state after `Put("0000000001", "edgar/data/1/a.txt", "10-K", "2020-01-01")`
ingested the content "abc" into the fresh index. -/
def ingestedState : State :=
  ⟨[(utf8 "data/edgar/ba/ba7816bf8f01cfea414140de5dae2223b00361a396177a9cb410ff61f20015ad",
      asciiBytes "abc")],
   ⟨[⟨"0000000001", .text "2020-01-01",
      "ba7816bf8f01cfea414140de5dae2223b00361a396177a9cb410ff61f20015ad", "10-K",
      "edgar/data/1/a.txt"⟩], false⟩⟩

/-- The error of line 104 of `Put`. -/
def hashMismatch (remotePath hash hash2 : String) : GoError :=
  .errorsNew ("Expected hash of " ++ remotePath ++ " to be " ++ hash ++ ", but got " ++ hash2)

/-! ## Theorems -/

theorem ToCSV.loop_reliable (d : FormDSubmission) (ps : List Person) (recs : List (List String)) :
    ToCSV.loop d ps ⟨recs, none⟩ = (⟨recs ++ ps.map (csvRecord d), none⟩, none) := by
  induction ps generalizing recs with
  | nil => simp [ToCSV.loop]
  | cons p ps ih => simp [ToCSV.loop, CsvWriter.Write, ih]

/-- C7: with a writer that never fails, `ToCSV` appends one record per related
person, in the order of `RelatedPeople`, and the record of person `p` is the
eleven fields issuer CIK, issuer name, entity type, industry, first name, last
name, the relationships joined by ", ", street, city, state and ZIP; every
record has as many fields as the header of `FormDHeadingsToCSV` and begins with
the same four issuer fields, and without related persons nothing is written. -/
theorem ToCSV_one_row_per_person (d : FormDSubmission) (recs : List (List String)) :
    d.ToCSV ⟨recs, none⟩ =
        (⟨recs ++ d.RelatedPeople.map (fun p =>
            [d.Issuer.CIK, d.Issuer.Name, d.Issuer.EntityType, d.Offering.Industry,
             p.Name.First, p.Name.Last, ", ".intercalate p.Relationships,
             p.Address.Street1, p.Address.City, p.Address.State, p.Address.ZIP]), none⟩, none)
      ∧ (d.ToCSV ⟨recs, none⟩).1.records.length = recs.length + d.RelatedPeople.length
      ∧ (∀ row ∈ (d.ToCSV ⟨recs, none⟩).1.records.drop recs.length,
          row.length = 11 ∧
          row.take 4 = [d.Issuer.CIK, d.Issuer.Name, d.Issuer.EntityType, d.Offering.Industry])
      ∧ FormDHeadingsToCSV ⟨recs, none⟩ = (⟨recs ++ [formDHeadings], none⟩, none)
      ∧ formDHeadings.length = 11
      ∧ (d.RelatedPeople = [] → d.ToCSV ⟨recs, none⟩ = (⟨recs, none⟩, none)) := by
  have h := ToCSV.loop_reliable d d.RelatedPeople recs
  refine ⟨?_, ?_, ?_, ?_, ?_, ?_⟩
  · simpa [FormDSubmission.ToCSV, csvRecord, stringsJoin] using h
  · simp [FormDSubmission.ToCSV, h]
  · intro row hrow
    simp only [FormDSubmission.ToCSV, h, List.drop_left, List.mem_map] at hrow
    obtain ⟨p, _, rfl⟩ := hrow
    simp [csvRecord]
  · simp [FormDHeadingsToCSV, CsvWriter.Write]
  · rfl
  · intro hnil
    simp [FormDSubmission.ToCSV, hnil, ToCSV.loop]

theorem MostRecentOfType.loop_prefix {σ : Type} (h : filingHandler σ) (rows : List Filing) (s : σ) :
    ∃ k, k ≤ rows.length ∧
      (MostRecentOfType.loop h (rows.map .ok) s).2.map (fun c => (c.f, c.err)) =
        (rows.take k).map (fun r => (some r, none)) := by
  induction rows generalizing s with
  | nil => exact ⟨0, by simp [MostRecentOfType.loop]⟩
  | cons r rest ih =>
    by_cases hstop : (h s (some r) none).1 = true
    · exact ⟨1, by simp [MostRecentOfType.loop, hstop]⟩
    · obtain ⟨k, hk, heq⟩ := ih (h s (some r) none).2
      exact ⟨k + 1, by simpa using hk, by simp [MostRecentOfType.loop, hstop, heq]⟩

theorem MostRecentOfType.loop_stop_last {σ : Type} (h : filingHandler σ) (rows : List Filing)
    (s : σ) (j : Nat) (c : Call)
    (hc : (MostRecentOfType.loop h (rows.map .ok) s).2[j]? = some c) (hs : c.stop = true) :
    j + 1 = (MostRecentOfType.loop h (rows.map .ok) s).2.length := by
  induction rows generalizing s j with
  | nil => simp [MostRecentOfType.loop] at hc
  | cons r rest ih =>
    by_cases hstop : (h s (some r) none).1 = true
    · simp only [List.map_cons, MostRecentOfType.loop, hstop, if_true] at hc ⊢
      cases j with
      | zero => simp
      | succ j => simp at hc
    · simp only [List.map_cons, MostRecentOfType.loop, hstop] at hc ⊢
      cases j with
      | zero =>
        simp at hc
        subst hc
        simp at hs
      | succ j =>
        simp at hc
        simpa using ih _ j hc

theorem MostRecentOfType.loop_short {σ : Type} (h : filingHandler σ) (rows : List Filing) (s : σ)
    (hlt : (MostRecentOfType.loop h (rows.map .ok) s).2.length < rows.length) :
    ∃ c, (MostRecentOfType.loop h (rows.map .ok) s).2.getLast? = some c ∧ c.stop = true := by
  induction rows generalizing s with
  | nil => simp at hlt
  | cons r rest ih =>
    by_cases hstop : (h s (some r) none).1 = true
    · exact ⟨⟨some r, none, true⟩, by simp [MostRecentOfType.loop, hstop]⟩
    · simp only [List.map_cons, MostRecentOfType.loop, hstop] at hlt ⊢
      have hlt' : (MostRecentOfType.loop h (rest.map .ok) (h s (some r) none).2).2.length
          < rest.length := by simpa using hlt
      obtain ⟨c, hc, hs⟩ := ih _ hlt'
      refine ⟨c, ?_, hs⟩
      cases ht : (MostRecentOfType.loop h (rest.map .ok) (h s (some r) none).2).2 with
      | nil => simp [ht] at hc
      | cons a t =>
        rw [ht] at hc
        simpa [List.getLast?_cons_cons] using hc

theorem MostRecentOfType.loop_decided {σ : Type} (h : filingHandler σ) (p : Filing → Bool)
    (hp : ∀ s f, (h s (some f) none).1 = p f) (rows : List Filing) (s : σ) :
    (MostRecentOfType.loop h (rows.map .ok) s).2 =
      (uptoFirst p rows).map (fun r => ⟨some r, none, p r⟩) := by
  induction rows generalizing s with
  | nil => simp [MostRecentOfType.loop, uptoFirst]
  | cons r rest ih =>
    by_cases hstop : p r = true
    · simp [MostRecentOfType.loop, uptoFirst, hp, hstop]
    · simp [MostRecentOfType.loop, uptoFirst, hp, hstop, ih]

/-- C10: on result rows `r1..rn` (each scanned without error) `MostRecentOfType`
invokes the handler on a leading part of the rows, in order, each once and with
a nil error; a call that returned `stop = true` is the last call; the rows are
cut short only by a call that returned true, so a handler that never returns
true is invoked on each of the `n` rows (a handler whose flag is `p` of the
row sees the rows up to and including the first with `p`); and if the query
fails the handler is invoked exactly once, with `(nil, err)`. The rows are
those of `latestFormQuery` on an open database; on a closed one the query
fails. -/
theorem MostRecentOfType_invocations {σ : Type} (h : filingHandler σ) (rows : List Filing)
    (s : σ) :
    (∃ k, k ≤ rows.length ∧
        (MostRecentOfType.body h (.ok (rows.map .ok)) s).2.map (fun c => (c.f, c.err)) =
          (rows.take k).map (fun r => (some r, none)))
      ∧ (∀ j c, (MostRecentOfType.body h (.ok (rows.map .ok)) s).2[j]? = some c →
          c.stop = true → j + 1 = (MostRecentOfType.body h (.ok (rows.map .ok)) s).2.length)
      ∧ ((MostRecentOfType.body h (.ok (rows.map .ok)) s).2.length < rows.length →
          ∃ c, (MostRecentOfType.body h (.ok (rows.map .ok)) s).2.getLast? = some c
            ∧ c.stop = true)
      ∧ ((∀ s' f, (h s' (some f) none).1 = false) →
          (MostRecentOfType.body h (.ok (rows.map .ok)) s).2 =
            rows.map (fun r => ⟨some r, none, false⟩))
      ∧ (∀ p : Filing → Bool, (∀ s' f, (h s' (some f) none).1 = p f) →
          (MostRecentOfType.body h (.ok (rows.map .ok)) s).2 =
            (uptoFirst p rows).map (fun r => ⟨some r, none, p r⟩))
      ∧ (∀ err, (MostRecentOfType.body h (.error err) s).2 =
          [⟨none, some err, (h s none (some err)).1⟩])
      ∧ (∀ (env : Env) filings form,
          FilingIndex.MostRecentOfType env ⟨filings, false⟩ form h s =
            MostRecentOfType.body h
              (.ok ((latestFormQuery env filings (form ++ "%") (form ++ "%")).map .ok)) s)
      ∧ (∀ (env : Env) filings form,
          (FilingIndex.MostRecentOfType env ⟨filings, true⟩ form h s).2 =
            [⟨none, some errClosed, (h s none (some errClosed)).1⟩]) := by
  refine ⟨MostRecentOfType.loop_prefix h rows s, ?_, MostRecentOfType.loop_short h rows s, ?_,
    ?_, fun _ => rfl, fun _ _ _ => rfl, fun _ _ _ => rfl⟩
  · intro j c hc hs
    exact MostRecentOfType.loop_stop_last h rows s j c hc hs
  · intro hnever
    have hd := MostRecentOfType.loop_decided h (fun _ => false) hnever rows s
    have hall : uptoFirst (fun _ => false) rows = rows := by
      clear hd
      induction rows with
      | nil => rfl
      | cons r rest ih => simp [uptoFirst, ih]
    simpa [MostRecentOfType.body, hall] using hd
  · intro p hp
    exact MostRecentOfType.loop_decided h p hp rows s

theorem utf8_length (s : String) : (utf8 s).length = s.utf8ByteSize := by
  cases s with
  | mk l =>
    induction l with
    | nil => rfl
    | cons c cs ih =>
      simp only [utf8, List.flatMap_cons, List.length_append,
        String.length_utf8EncodeChar] at ih ⊢
      rw [ih]
      simp only [String.utf8ByteSize, String.utf8ByteSize.go]
      omega

theorem sliceTo_short (s : Bytes) (h : s.length < 2) :
    sliceTo s 2 = .panic "slice bounds out of range" := by
  simp [sliceTo, h]

theorem fileStore.objectPath_short (env : Env) (fs : fileStore) (bucket id : String)
    (h : id.utf8ByteSize < 2) :
    fs.objectPath env bucket id = .panic "slice bounds out of range" := by
  have h' : (utf8 id).length < 2 := by rw [utf8_length]; exact h
  simp [fileStore.objectPath, sliceTo_short (utf8 id) h', Res.bind]

theorem fileStore.objectPath_long (env : Env) (fs : fileStore) (bucket id : String)
    (h : 2 ≤ id.utf8ByteSize) :
    fs.objectPath env bucket id =
      .ret (env.filepathJoin [utf8 fs.dataDir, utf8 bucket, (utf8 id).take 2, utf8 id],
        none) := by
  have h' : ¬ (utf8 id).length < 2 := by rw [utf8_length]; omega
  simp [fileStore.objectPath, sliceTo, h', Res.bind]

/-- C5 (code at the failing input): for an object id of fewer than two bytes,
such as "a" or the empty id, `objectPath` panics on `id[0:2]` instead of
returning `errObjectIDTooShort`, and so do `Put`, `Exists` and `Get`; for an
id of two bytes or more `objectPath` returns no error and the join of
`dataDir`, the bucket, `id[0:2]` and the id. -/
theorem objectPath_short_id_panics (env : Env) (fs : fileStore) (fsys : FileSys)
    (bucket : String) (data : Bytes) :
    (fs.objectPath env bucket "a" = .panic "slice bounds out of range"
        ∧ fs.Put env fsys bucket "a" data = .panic "slice bounds out of range"
        ∧ fs.Exists env fsys bucket "a" = .panic "slice bounds out of range"
        ∧ fs.Get env fsys bucket "a" = .panic "slice bounds out of range")
      ∧ (∀ id : String, id.utf8ByteSize < 2 →
          fs.objectPath env bucket id = .panic "slice bounds out of range"
            ∧ fs.Put env fsys bucket id data = .panic "slice bounds out of range"
            ∧ fs.Exists env fsys bucket id = .panic "slice bounds out of range"
            ∧ fs.Get env fsys bucket id = .panic "slice bounds out of range")
      ∧ (∀ id : String, 2 ≤ id.utf8ByteSize →
          fs.objectPath env bucket id =
            .ret (env.filepathJoin [utf8 fs.dataDir, utf8 bucket, (utf8 id).take 2, utf8 id],
              none)) := by
  have key : ∀ id : String, id.utf8ByteSize < 2 →
      fs.objectPath env bucket id = .panic "slice bounds out of range"
        ∧ fs.Put env fsys bucket id data = .panic "slice bounds out of range"
        ∧ fs.Exists env fsys bucket id = .panic "slice bounds out of range"
        ∧ fs.Get env fsys bucket id = .panic "slice bounds out of range" := by
    intro id hid
    have h := fileStore.objectPath_short env fs bucket id hid
    simp [fileStore.Put, fileStore.Exists, fileStore.Get, h, Res.bind]
  exact ⟨key "a" (by decide), key, fun id hid => fileStore.objectPath_long env fs bucket id hid⟩

theorem FilingIndex.ParseFormD_no_match (env : Env) (i : FilingIndex) (fsys : FileSys)
    (hash : String) (data : Bytes) (hget : i.store.Get env fsys "edgar" hash = .ret (data, none))
    (hm : formDPattern.FindSubmatch data = []) :
    i.ParseFormD env fsys hash = .panic "index out of range [1] with length 0" := by
  simp [FilingIndex.ParseFormD, hget, hm, Res.bind]

/-- C6 (code at the failing input): for a stored blob without an
`<edgarSubmission>` fragment, here the bytes of "no fragment here" stored under
"abcd", `ParseFormD` does not return the "unexpected format" error: it goes on
to `m[1]` and panics; so it does for every stored blob the pattern does not
match. -/
theorem ParseFormD_without_fragment_panics (env : Env) (i : FilingIndex) :
    formDPattern.FindSubmatch (asciiBytes "no fragment here") = []
      ∧ i.ParseFormD env
          [(env.filepathJoin [utf8 i.store.dataDir, utf8 "edgar", utf8 "ab", utf8 "abcd"],
            asciiBytes "no fragment here")] "abcd"
        = .panic "index out of range [1] with length 0"
      ∧ (∀ (fsys : FileSys) (hash : String) (data : Bytes),
          i.store.Get env fsys "edgar" hash = .ret (data, none) →
          formDPattern.FindSubmatch data = [] →
          i.ParseFormD env fsys hash = .panic "index out of range [1] with length 0") := by
  have hm : formDPattern.FindSubmatch (asciiBytes "no fragment here") = [] := by decide
  refine ⟨hm, ?_, fun fsys hash data hget hm' =>
    FilingIndex.ParseFormD_no_match env i fsys hash data hget hm'⟩
  apply FilingIndex.ParseFormD_no_match env i _ "abcd" (asciiBytes "no fragment here") _ hm
  have hp : fileStore.objectPath env i.store "edgar" "abcd" =
      .ret (env.filepathJoin [utf8 i.store.dataDir, utf8 "edgar", utf8 "ab", utf8 "abcd"],
        none) := by
    rw [fileStore.objectPath_long env i.store "edgar" "abcd" (by decide)]
    have h2 : (utf8 "abcd").take 2 = utf8 "ab" := by decide
    rw [h2]
  simp [fileStore.Get, hp, Res.bind, FileSys.read]

theorem checkExistsSQL_other (filings : List Row) (p1 : String) (h : p1 ≠ "source_path") :
    checkExistsSQL filings p1 = [] := by
  have h' : ¬ ("source_path" = p1) := fun e => h e.symm
  simp [checkExistsSQL, h']

theorem DB.lookup_other (db : DB) (remotePath : String) (hopen : db.closed = false)
    (h : remotePath ≠ "source_path") : db.lookup remotePath = ("", some .ErrNoRows) := by
  simp [DB.lookup, hopen, checkExistsSQL_other db.filings remotePath h]

/-- C8 (code at the failing input): after the insert statement recorded
locator "edgar/data/1/a.txt" with hash "ab12", the lookup of `Put` for that
locator returns `sql.ErrNoRows` and no hash, where the specification's
`lookupHash` returns "ab12"; the statement selects no row for any parameter
other than the text "source_path", and for that text it yields the text
"content_sha256" once per row of the table. -/
theorem lookup_misses_recorded_locator (env : Env) :
    (DB.insrtExec env ⟨[], false⟩ "0000000001" "2020-01-01" "ab12" "10-K"
        "edgar/data/1/a.txt").2 = none
      ∧ (DB.insrtExec env ⟨[], false⟩ "0000000001" "2020-01-01" "ab12" "10-K"
            "edgar/data/1/a.txt").1.lookup "edgar/data/1/a.txt" = ("", some .ErrNoRows)
      ∧ lookupHashSpec
          (DB.insrtExec env ⟨[], false⟩ "0000000001" "2020-01-01" "ab12" "10-K"
            "edgar/data/1/a.txt").1.filings "edgar/data/1/a.txt" = some "ab12"
      ∧ (∀ (filings : List Row) (p1 : String), p1 ≠ "source_path" →
          checkExistsSQL filings p1 = [])
      ∧ (∀ filings : List Row,
          checkExistsSQL filings "source_path" = filings.map (fun _ => "content_sha256")) := by
  refine ⟨rfl, rfl, rfl, checkExistsSQL_other, ?_⟩
  intro filings
  simp [checkExistsSQL]

/-- C9 (code at the failing input): of the extracted text with the lines
"[2020]", "Revenue increased 10%." and "12.5 / 3", the post-processing of
`makeHandler` keeps the line "[2020]", which contains no letter: `[` lies in
the range `[A-z]` of `letters` and is no noise. -/
theorem makeHandler_keeps_line_without_letter (inLNdNlZP : Char → Bool) :
    makeHandler.text ⟨Char.ofNat 0x2610, inLNdNlZP⟩ "[2020]\nRevenue increased 10%.\n12.5 / 3"
        = "[2020]\nRevenue increased 10%."
      ∧ containsLetter "[2020]".data = false
      ∧ letters.Match "[2020]".data = true := by
  refine ⟨?_, by decide, by decide⟩
  rfl

theorem FileSys.any_write (fsys : FileSys) (path : Bytes) (data : Bytes) :
    (fsys.write path data).any (fun e => decide (e.1 = path)) = true := by
  unfold FileSys.write
  split
  · rename_i h
    simp only [List.any_eq_true, decide_eq_true_eq] at h ⊢
    obtain ⟨e, he, hp⟩ := h
    exact ⟨(path, data), by
      simp only [List.mem_map]
      exact ⟨e, he, by simp [hp]⟩, rfl⟩
  · simp

theorem FileSys.write_write (fsys : FileSys) (path : Bytes) (data : Bytes) :
    (fsys.write path data).write path data = fsys.write path data := by
  have h := FileSys.any_write fsys path data
  rw [FileSys.write, if_pos h]
  have hid : ∀ l : FileSys, (∀ e ∈ l, e.1 = path → e = (path, data)) →
      l.map (fun e => if e.1 = path then (path, data) else e) = l := by
    intro l hl
    induction l with
    | nil => rfl
    | cons a l ih =>
      simp only [List.map_cons, List.cons.injEq]
      constructor
      · by_cases ha : a.1 = path
        · simp [ha, (hl a (List.mem_cons_self _ _) ha).symm]
        · simp [ha]
      · exact ih (fun e he => hl e (List.mem_cons_of_mem _ he))
  apply hid
  intro e he hp
  unfold FileSys.write at he
  split at he
  · simp only [List.mem_map] at he
    obtain ⟨a, _, ha⟩ := he
    by_cases hap : a.1 = path
    · simp [hap] at ha
      exact ha.symm
    · simp [hap] at ha
      subst ha
      exact absurd hp hap
  · rename_i hnone
    simp only [List.mem_append, List.mem_singleton] at he
    rcases he with he | he
    · exact absurd (List.any_eq_true.mpr ⟨e, he, by simpa using hp⟩) hnone
    · exact he

theorem FileSys.find_map_other (l : FileSys) (path p : Bytes) (data : Bytes) (h : p ≠ path) :
    (l.map (fun e => if e.1 = path then (path, data) else e)).find? (fun e => decide (e.1 = p))
      = l.find? (fun e => decide (e.1 = p)) := by
  have hpp : ¬ path = p := fun e => h e.symm
  induction l with
  | nil => rfl
  | cons a l ih =>
    rw [List.map_cons, List.find?_cons, List.find?_cons, ih]
    by_cases ha : a.1 = path
    · have hap : ¬ a.1 = p := fun e => h (e.symm.trans ha)
      simp [ha, hap, hpp]
    · simp [ha]

theorem FileSys.read_write_other (fsys : FileSys) (path p : Bytes) (data : Bytes)
    (h : p ≠ path) : (fsys.write path data).read p = fsys.read p := by
  unfold FileSys.write FileSys.read
  split
  · rw [FileSys.find_map_other fsys path p data h]
  · have hpp : ¬ path = p := fun e => h e.symm
    simp [List.find?_append, hpp]

theorem FileSys.mem_write (fsys : FileSys) (path : Bytes) (data : Bytes) (e : Bytes × Bytes)
    (h : e ∈ fsys.write path data) : e ∈ fsys ∨ e = (path, data) := by
  unfold FileSys.write at h
  split at h
  · simp only [List.mem_map] at h
    obtain ⟨a, ha, hae⟩ := h
    by_cases hap : a.1 = path
    · simp only [hap, if_true] at hae
      exact Or.inr hae.symm
    · simp only [hap, if_false] at hae
      exact Or.inl (hae ▸ ha)
  · simpa using h

theorem teeReadAll_eq (chunks : List Bytes) (acc : Bytes × Bytes) :
    teeReadAll chunks acc = (acc.1 ++ chunks.flatten, acc.2 ++ chunks.flatten) := by
  induction chunks generalizing acc with
  | nil => simp [teeReadAll]
  | cons c rest ih => simp [teeReadAll, ih]

theorem FilingIndex.fetchFiling_hash (env : Env) (net : Remote) (i : FilingIndex)
    (remotePath : String) (data : Bytes) (hash : String)
    (h : i.fetchFiling env net remotePath = (data, hash, none)) : hash = env.sha256Hex data := by
  unfold FilingIndex.fetchFiling at h
  cases hn : net (i.baseURL ++ remotePath) with
  | failed err => simp [hn] at h
  | response code status body bodyErr =>
    simp only [hn] at h
    by_cases hc : code = 200
    · cases bodyErr with
      | some err => simp [hc] at h
      | none =>
        simp only [hc, ne_eq, not_true_eq_false, if_false, teeReadAll_eq, List.nil_append,
          Prod.mk.injEq] at h
        rw [← h.1, ← h.2.1]
    · simp [hc] at h

theorem fileStore.objectPath_cases (env : Env) (fs : fileStore) (bucket id : String) :
    fs.objectPath env bucket id = .panic "slice bounds out of range"
      ∨ fs.objectPath env bucket id =
          .ret (env.filepathJoin [utf8 fs.dataDir, utf8 bucket, (utf8 id).take 2, utf8 id],
            none) := by
  by_cases h : id.utf8ByteSize < 2
  · exact Or.inl (fileStore.objectPath_short env fs bucket id h)
  · exact Or.inr (fileStore.objectPath_long env fs bucket id (by omega))

/-- A store `Put` that returns wrote nothing, or wrote a leading part of the
data at the object's path. -/
theorem fileStore.Put_ret (env : Env) (fs : fileStore) (fsys : FileSys) (bucket id : String)
    (data : Bytes) (w : FileSys × Option GoError) (h : fs.Put env fsys bucket id data = .ret w) :
    ∃ p, fs.objectPath env bucket id = .ret (p, none) ∧
      (w.1 = fsys ∨ ∃ n, w.1 = fsys.write p (data.take n)) := by
  rcases fileStore.objectPath_cases env fs bucket id with hp | hp
  · simp [fileStore.Put, hp, Res.bind] at h
  · refine ⟨_, hp, ?_⟩
    simp only [fileStore.Put, hp, Res.bind] at h
    split at h
    · simp only [Res.ret.injEq] at h
      exact Or.inl (by rw [← h])
    · split at h
      · simp only [Res.ret.injEq] at h
        exact Or.inl (by rw [← h])
      · split at h
        · rename_i fault _
          simp only [Res.ret.injEq] at h
          exact Or.inr ⟨fault.1, by rw [← h]⟩
        · simp only [Res.ret.injEq] at h
          exact Or.inr ⟨data.length, by rw [← h, List.take_length]⟩

/-- A store `Put` that returns no error met no fault and wrote all the data
at the object's path. -/
theorem fileStore.Put_ret_ok (env : Env) (fs : fileStore) (fsys : FileSys) (bucket id : String)
    (data : Bytes) (fsys' : FileSys) (h : fs.Put env fsys bucket id data = .ret (fsys', none)) :
    ∃ p, fs.objectPath env bucket id = .ret (p, none) ∧ fsys' = fsys.write p data ∧
      env.osMkdirAll (env.filepathDir p) = none ∧ env.osCreate p = none ∧
      env.ioCopy p data = none := by
  rcases fileStore.objectPath_cases env fs bucket id with hp | hp
  · simp [fileStore.Put, hp, Res.bind] at h
  · refine ⟨_, hp, ?_⟩
    simp only [fileStore.Put, hp, Res.bind] at h
    split at h
    · simp at h
    · rename_i hmk
      split at h
      · simp at h
      · rename_i hcr
        split at h
        · simp at h
        · rename_i hcp
          simp only [Res.ret.injEq, Prod.mk.injEq, and_true] at h
          exact ⟨h.symm, hmk, hcr, hcp⟩

/-- Without a fault the store `Put` writes all the data at the object's path. -/
theorem fileStore.Put_of_ok (env : Env) (fs : fileStore) (fsys : FileSys) (bucket id : String)
    (data : Bytes) (p : Bytes) (hp : fs.objectPath env bucket id = .ret (p, none))
    (hmk : env.osMkdirAll (env.filepathDir p) = none) (hcr : env.osCreate p = none)
    (hcp : env.ioCopy p data = none) :
    fs.Put env fsys bucket id data = .ret (fsys.write p data, none) := by
  simp [fileStore.Put, hp, Res.bind, hmk, hcr, hcp]

/-- What a returning `Put` did, by the path it took: nothing to the state; or,
on the found path, the store `Put` of the fetched bytes under the recorded
hash they digest to; or, on the not-found path, that store `Put`, which
failed; or that store `Put` and then the insert. -/
theorem FilingIndex.Put.afterLookup_ret (env : Env) (net : Remote) (i : FilingIndex) (st : State)
    (cik remotePath form filed_on : String) (q : String × Option GoError) (st' : State)
    (e : Option GoError)
    (h : FilingIndex.Put.afterLookup env net i st cik remotePath form filed_on q = .ret (st', e)) :
    st' = st
      ∨ (∃ data w, q.2 = none
          ∧ i.fetchFiling env net remotePath = (data, q.1, none)
          ∧ i.store.Put env st.fsys "edgar" q.1 data = .ret w
          ∧ st' = { st with fsys := w.1 } ∧ e = w.2)
      ∨ (∃ data hash w, q.2 = some .ErrNoRows
          ∧ i.fetchFiling env net remotePath = (data, hash, none)
          ∧ i.store.Put env st.fsys "edgar" hash data = .ret w
          ∧ w.2 ≠ none ∧ st' = { st with fsys := w.1 } ∧ e = w.2)
      ∨ (∃ data hash w, q.2 = some .ErrNoRows
          ∧ i.fetchFiling env net remotePath = (data, hash, none)
          ∧ i.store.Put env st.fsys "edgar" hash data = .ret w
          ∧ w.2 = none
          ∧ st' = ⟨w.1, (st.db.insrtExec env cik filed_on hash form remotePath).1⟩
          ∧ e = (st.db.insrtExec env cik filed_on hash form remotePath).2) := by
  unfold FilingIndex.Put.afterLookup at h
  simp only [FilingIndex.bucketFor] at h
  by_cases h1 : q.2 ≠ none ∧ q.2 ≠ some .ErrNoRows
  · rw [if_pos h1] at h
    simp only [Res.ret.injEq, Prod.mk.injEq] at h
    exact Or.inl h.1.symm
  · rw [if_neg h1] at h
    by_cases h2 : q.2 = none
    · rw [if_pos h2] at h
      cases hex : i.store.Exists env st.fsys "edgar" q.1 with
      | panic m => simp [hex, Res.bind] at h
      | ret found =>
        simp only [hex, Res.bind] at h
        by_cases hf : found = true
        · simp only [hf, if_true, Res.ret.injEq, Prod.mk.injEq] at h
          exact Or.inl h.1.symm
        · simp only [hf, Bool.false_eq_true, if_false] at h
          by_cases h3 : (i.fetchFiling env net remotePath).2.2 ≠ none
          · rw [if_pos h3] at h
            simp only [Res.ret.injEq, Prod.mk.injEq] at h
            exact Or.inl h.1.symm
          · rw [if_neg h3] at h
            by_cases h4 : q.1 ≠ (i.fetchFiling env net remotePath).2.1
            · rw [if_pos h4] at h
              simp only [Res.ret.injEq, Prod.mk.injEq] at h
              exact Or.inl h.1.symm
            · rw [if_neg h4] at h
              cases hw : i.store.Put env st.fsys "edgar" q.1
                  (i.fetchFiling env net remotePath).1 with
              | panic m => simp [hw, Res.bind] at h
              | ret w =>
                simp only [hw, Res.bind, Res.ret.injEq, Prod.mk.injEq] at h
                refine Or.inr (Or.inl ⟨_, w, h2, ?_, hw, h.1.symm, h.2.symm⟩)
                have h3' : (i.fetchFiling env net remotePath).2.2 = none := by
                  simpa using h3
                have h4' : q.1 = (i.fetchFiling env net remotePath).2.1 := by
                  simpa using h4
                rw [h4']
                conv_rhs => rw [← h3']
    · rw [if_neg h2] at h
      have hq : q.2 = some .ErrNoRows := by
        by_contra hne
        exact h1 ⟨h2, hne⟩
      by_cases h3 : (i.fetchFiling env net remotePath).2.2 ≠ none
      · rw [if_pos h3] at h
        simp only [Res.ret.injEq, Prod.mk.injEq] at h
        exact Or.inl h.1.symm
      · rw [if_neg h3] at h
        have h3' : (i.fetchFiling env net remotePath).2.2 = none := by
          simpa using h3
        have hfetch : i.fetchFiling env net remotePath =
            ((i.fetchFiling env net remotePath).1, (i.fetchFiling env net remotePath).2.1,
              none) := by
          conv_rhs => rw [← h3']
        cases hw : i.store.Put env st.fsys "edgar" (i.fetchFiling env net remotePath).2.1
            (i.fetchFiling env net remotePath).1 with
        | panic m => simp [hw, Res.bind] at h
        | ret w =>
          simp only [hw, Res.bind] at h
          by_cases hwe : w.2 ≠ none
          · rw [if_pos hwe] at h
            simp only [Res.ret.injEq, Prod.mk.injEq] at h
            exact Or.inr (Or.inr (Or.inl ⟨_, _, w, hq, hfetch, hw, hwe, h.1.symm, h.2.symm⟩))
          · rw [if_neg hwe] at h
            simp only [Res.ret.injEq, Prod.mk.injEq] at h
            exact Or.inr (Or.inr (Or.inr
              ⟨_, _, w, hq, hfetch, hw, by simpa using hwe, h.1.symm, h.2.symm⟩))

theorem StoreInv_write (env : Env) (store : fileStore) (fsys : FileSys) (p : Bytes)
    (data : Bytes) (hinv : StoreInv env store fsys)
    (hp : store.objectPath env "edgar" (env.sha256Hex data) = .ret (p, none)) :
    StoreInv env store (fsys.write p data) := by
  intro e he
  rcases FileSys.mem_write fsys p data e he with h | h
  · exact hinv e h
  · subst h
    exact hp

/-- A store `Put` under the digest of its bytes that returns no error keeps
the invariant. -/
theorem StoreInv_Put_ok (env : Env) (store : fileStore) (fsys fsys' : FileSys) (data : Bytes)
    (hinv : StoreInv env store fsys)
    (h : store.Put env fsys "edgar" (env.sha256Hex data) data = .ret (fsys', none)) :
    StoreInv env store fsys' := by
  obtain ⟨p, hp, hw, _⟩ := fileStore.Put_ret_ok env store fsys "edgar" _ data fsys' h
  rw [hw]
  exact StoreInv_write env store fsys p data hinv hp

/-- C4 (amended): in every execution of `Put` that returns, whatever the
lookup found (so on the not-found path and on the found-but-blob-missing path
alike), the bytes `fetchFiling` buffered are the bytes it hashed, and the
state is either left as it was or the store received one `Put` whose key is
the hex SHA-256 digest of the bytes handed to it; that store `Put` left the
files as they were or wrote a leading part of the bytes at the path of the
key. If every blob of the store lay at the path of its digest before the
call, every blob does after it whenever that store `Put` reported no error,
in particular whenever `Put` returns nil. -/
theorem Put_stores_blob_under_its_digest (env : Env) (net : Remote) (i : FilingIndex)
    (st : State) (cik remotePath form filed_on : String) (q : String × Option GoError)
    (st' : State) (e : Option GoError)
    (hput : FilingIndex.Put.afterLookup env net i st cik remotePath form filed_on q
      = .ret (st', e)) :
    (∀ data hash, i.fetchFiling env net remotePath = (data, hash, none) →
        hash = env.sha256Hex data)
      ∧ (st' = st
          ∨ ∃ data w p, i.fetchFiling env net remotePath = (data, env.sha256Hex data, none)
              ∧ i.store.Put env st.fsys "edgar" (env.sha256Hex data) data = .ret w
              ∧ st'.fsys = w.1 ∧ (e = none → w.2 = none)
              ∧ i.store.objectPath env "edgar" (env.sha256Hex data) = .ret (p, none)
              ∧ (w.1 = st.fsys ∨ ∃ n, w.1 = st.fsys.write p (data.take n)))
      ∧ (StoreInv env i.store st.fsys → e = none → StoreInv env i.store st'.fsys)
      ∧ (StoreInv env i.store st.fsys →
          (∀ data hash w, i.fetchFiling env net remotePath = (data, hash, none) →
            i.store.Put env st.fsys "edgar" hash data = .ret w → w.2 = none) →
          StoreInv env i.store st'.fsys)
      ∧ (∀ st2 e2, i.Put env net st cik remotePath form filed_on = .ret (st2, e2) →
          StoreInv env i.store st.fsys → e2 = none → StoreInv env i.store st2.fsys) := by
  have hhash := fun data hash hf =>
    FilingIndex.fetchFiling_hash env net i remotePath data hash hf
  have hcall : ∀ (q0 : String × Option GoError) (s0 : State) (e0 : Option GoError),
      FilingIndex.Put.afterLookup env net i st cik remotePath form filed_on q0 = .ret (s0, e0) →
      s0 = st
        ∨ ∃ data w p, i.fetchFiling env net remotePath = (data, env.sha256Hex data, none)
            ∧ i.store.Put env st.fsys "edgar" (env.sha256Hex data) data = .ret w
            ∧ s0.fsys = w.1 ∧ (e0 = none → w.2 = none)
            ∧ i.store.objectPath env "edgar" (env.sha256Hex data) = .ret (p, none)
            ∧ (w.1 = st.fsys ∨ ∃ n, w.1 = st.fsys.write p (data.take n)) := by
    intro q0 s0 e0 h0
    rcases FilingIndex.Put.afterLookup_ret env net i st cik remotePath form filed_on q0 s0 e0 h0
      with h1 | ⟨data, w, _, hf, hw, hst, he⟩ | ⟨data, hash, w, _, hf, hw, hwe, hst, he⟩
        | ⟨data, hash, w, _, hf, hw, hwe, hst, _⟩
    · exact Or.inl h1
    · have hh := hhash data q0.1 hf
      rw [hh] at hf hw
      obtain ⟨p, hp, hfs⟩ := fileStore.Put_ret env i.store st.fsys "edgar" _ data w hw
      exact Or.inr ⟨data, w, p, hf, hw, by rw [hst], fun h => by rw [← he, h], hp, hfs⟩
    · have hh := hhash data hash hf
      rw [hh] at hf hw
      obtain ⟨p, hp, hfs⟩ := fileStore.Put_ret env i.store st.fsys "edgar" _ data w hw
      exact Or.inr ⟨data, w, p, hf, hw, by rw [hst], fun h => by rw [← he, h], hp, hfs⟩
    · have hh := hhash data hash hf
      rw [hh] at hf hw
      obtain ⟨p, hp, hfs⟩ := fileStore.Put_ret env i.store st.fsys "edgar" _ data w hw
      exact Or.inr ⟨data, w, p, hf, hw, by rw [hst], fun _ => hwe, hp, hfs⟩
  have hinv : ∀ (q0 : String × Option GoError) (s0 : State) (e0 : Option GoError),
      FilingIndex.Put.afterLookup env net i st cik remotePath form filed_on q0 = .ret (s0, e0) →
      StoreInv env i.store st.fsys → e0 = none → StoreInv env i.store s0.fsys := by
    intro q0 s0 e0 h0 hI he0
    rcases hcall q0 s0 e0 h0 with h1 | ⟨data, w, _, _, hw, hfs, hok, _⟩
    · rw [h1]
      exact hI
    · rw [hfs]
      have hw2 := hok he0
      have hw' : i.store.Put env st.fsys "edgar" (env.sha256Hex data) data = .ret (w.1, none) := by
        rw [hw, ← hw2]
      exact StoreInv_Put_ok env i.store st.fsys w.1 data hI hw'
  refine ⟨hhash, hcall q st' e hput, hinv q st' e hput, ?_, ?_⟩
  · intro hI hok
    rcases hcall q st' e hput with h1 | ⟨data, w, _, hf, hw, hfs, _⟩
    · rw [h1]
      exact hI
    · rw [hfs]
      have hw2 := hok data _ w hf hw
      have hw' : i.store.Put env st.fsys "edgar" (env.sha256Hex data) data = .ret (w.1, none) := by
        rw [hw, ← hw2]
      exact StoreInv_Put_ok env i.store st.fsys w.1 data hI hw'
  · intro st2 e2 h2 hI he2
    exact hinv _ st2 e2 h2 hI he2

/-- C4 (amended) at a concrete input: the first `Put` of the worked example
takes the not-found path, returns nil and leaves the blob "abc" at the path of
its digest. -/
theorem Put_stores_blob_under_its_digest_witness :
    FilingIndex.Put.afterLookup exampleEnv (exampleRemote (asciiBytes "abc")) exampleIndex
        emptyState "0000000001" "edgar/data/1/a.txt" "10-K" "2020-01-01" ("", some .ErrNoRows)
        = .ret (ingestedState, none)
      ∧ StoreInv exampleEnv exampleIndex.store ingestedState.fsys :=
  ⟨by decide,
   (Put_stores_blob_under_its_digest exampleEnv (exampleRemote (asciiBytes "abc")) exampleIndex
      emptyState "0000000001" "edgar/data/1/a.txt" "10-K" "2020-01-01" ("", some .ErrNoRows)
      ingestedState none (by decide)).2.2.1 (by intro e he; simp [emptyState] at he) rfl⟩

/-- C4 as stated fails: with a full disk the first `Put` of the worked example
hands the store the content "abc" under its digest, `os.Create` makes the
file, `io.Copy` fails after two bytes, and `Put` returns that error with the
bytes "ab" left under the digest of "abc". The store satisfied key =
digest(bytes) before the call (it was empty) and does not after it. -/
theorem Put_truncated_blob_counterexample :
    StoreInv diskFullEnv exampleIndex.store emptyState.fsys
      ∧ exampleIndex.Put diskFullEnv (exampleRemote (asciiBytes "abc")) emptyState
          "0000000001" "edgar/data/1/a.txt" "10-K" "2020-01-01"
        = .ret (⟨[(utf8
              "data/edgar/ba/ba7816bf8f01cfea414140de5dae2223b00361a396177a9cb410ff61f20015ad",
              asciiBytes "ab")], emptyState.db⟩,
            some (.os "no space left on device"))
      ∧ diskFullEnv.sha256Hex (asciiBytes "ab")
          ≠ "ba7816bf8f01cfea414140de5dae2223b00361a396177a9cb410ff61f20015ad"
      ∧ ¬ StoreInv diskFullEnv exampleIndex.store
          [(utf8 "data/edgar/ba/ba7816bf8f01cfea414140de5dae2223b00361a396177a9cb410ff61f20015ad",
            asciiBytes "ab")] := by
  refine ⟨by intro e he; simp [emptyState] at he, by decide, by decide, ?_⟩
  intro h
  have h1 := h _ (List.mem_singleton_self _)
  revert h1
  decide

theorem FilingIndex.Put.afterLookup_notFound (env : Env) (net : Remote) (i : FilingIndex)
    (st : State) (cik remotePath form filed_on h0 : String) :
    FilingIndex.Put.afterLookup env net i st cik remotePath form filed_on (h0, some .ErrNoRows) =
      if (i.fetchFiling env net remotePath).2.2 ≠ none then
        .ret (st, (i.fetchFiling env net remotePath).2.2)
      else
        (i.store.Put env st.fsys "edgar" (i.fetchFiling env net remotePath).2.1
            (i.fetchFiling env net remotePath).1).bind fun w =>
          if w.2 ≠ none then .ret ({ st with fsys := w.1 }, w.2)
          else
            .ret (⟨w.1, (st.db.insrtExec env cik filed_on (i.fetchFiling env net remotePath).2.1
                form remotePath).1⟩,
              (st.db.insrtExec env cik filed_on (i.fetchFiling env net remotePath).2.1 form
                remotePath).2) := by
  simp [FilingIndex.Put.afterLookup, FilingIndex.bucketFor]

/-- C3 (code at the failing input, in general): when a first `Put` of a
locator (other than the text "source_path") succeeded and the remote content
is unchanged, the second `Put` with the same arguments does not succeed: it
takes the not-found path again and returns the insert's UNIQUE violation,
leaving the state of the first call. -/
theorem Put_second_call_fails (env : Env) (net : Remote) (i : FilingIndex) (st st1 : State)
    (cik remotePath form filed_on : String) (hL : remotePath ≠ "source_path")
    (h1 : i.Put env net st cik remotePath form filed_on = .ret (st1, none)) :
    i.Put env net st1 cik remotePath form filed_on =
      .ret (st1, some (.sqlite "UNIQUE constraint failed: filings.source_path")) := by
  unfold FilingIndex.Put at h1 ⊢
  cases hc : st.db.closed with
  | true =>
    simp [DB.lookup, hc, FilingIndex.Put.afterLookup, errClosed] at h1
  | false =>
    rw [DB.lookup_other st.db remotePath hc hL, FilingIndex.Put.afterLookup_notFound] at h1
    by_cases h3 : (i.fetchFiling env net remotePath).2.2 ≠ none
    · rw [if_pos h3] at h1
      simp only [Res.ret.injEq, Prod.mk.injEq] at h1
      exact absurd h1.2 h3
    · rw [if_neg h3] at h1
      cases hw : i.store.Put env st.fsys "edgar" (i.fetchFiling env net remotePath).2.1
          (i.fetchFiling env net remotePath).1 with
      | panic m => simp [hw, Res.bind] at h1
      | ret w =>
        simp only [hw, Res.bind] at h1
        by_cases hwe : w.2 ≠ none
        · rw [if_pos hwe] at h1
          simp only [Res.ret.injEq, Prod.mk.injEq] at h1
          exact absurd h1.2 hwe
        · rw [if_neg hwe] at h1
          have hwn : w.2 = none := by simpa using hwe
          have hw' : i.store.Put env st.fsys "edgar" (i.fetchFiling env net remotePath).2.1
              (i.fetchFiling env net remotePath).1 = .ret (w.1, none) := by
            rw [hw, ← hwn]
          obtain ⟨p, hp, hw1, hmk, hcr, hcp⟩ :=
            fileStore.Put_ret_ok env i.store st.fsys "edgar" _ _ w.1 hw'
          simp only [Res.ret.injEq, Prod.mk.injEq] at h1
          obtain ⟨hst, he⟩ := h1
          by_cases hany : st.db.filings.any (fun r => decide (r.source_path = remotePath)) = true
          · simp [DB.insrtExec, hc, hany] at he
          · have hdb : st.db.insrtExec env cik filed_on (i.fetchFiling env net remotePath).2.1
                form remotePath = ({ st.db with filings := st.db.filings ++
                  [⟨cik, env.numericAffinity filed_on, (i.fetchFiling env net remotePath).2.1,
                    form, remotePath⟩] }, none) := by
              simp only [DB.insrtExec, hc, hany]
              simp
            rw [hdb, hw1] at hst
            subst hst
            have hopen : ({ st.db with filings := st.db.filings ++
                  [⟨cik, env.numericAffinity filed_on, (i.fetchFiling env net remotePath).2.1,
                    form, remotePath⟩] } : DB).closed = false := hc
            rw [DB.lookup_other _ remotePath hopen hL, FilingIndex.Put.afterLookup_notFound,
              if_neg h3]
            have hw2 := fileStore.Put_of_ok env i.store
              (st.fsys.write p (i.fetchFiling env net remotePath).1) "edgar"
              (i.fetchFiling env net remotePath).2.1 (i.fetchFiling env net remotePath).1 p hp
              hmk hcr hcp
            rw [FileSys.write_write] at hw2
            simp [hw2, Res.bind, DB.insrtExec, hc]

/-- C3 at the failing input: the worked example's locator, content "abc",
ingested twice into a fresh index. -/
theorem Put_second_call_fails_witness :
    "edgar/data/1/a.txt" ≠ "source_path"
      ∧ exampleIndex.Put exampleEnv (exampleRemote (asciiBytes "abc")) emptyState
          "0000000001" "edgar/data/1/a.txt" "10-K" "2020-01-01" = .ret (ingestedState, none)
      ∧ exampleIndex.Put exampleEnv (exampleRemote (asciiBytes "abc")) ingestedState
          "0000000001" "edgar/data/1/a.txt" "10-K" "2020-01-01"
        = .ret (ingestedState, some (.sqlite "UNIQUE constraint failed: filings.source_path")) :=
  ⟨by decide, by decide,
   Put_second_call_fails exampleEnv (exampleRemote (asciiBytes "abc")) exampleIndex emptyState
     ingestedState "0000000001" "edgar/data/1/a.txt" "10-K" "2020-01-01" (by decide) (by decide)⟩

/-- C2 (code at the failing input): the worked example's locator was ingested
with "abc" (hash ba78...) and now serves "abd", whose digest differs. The
repeat `Put` does not find the recorded row, takes the not-found path, stores
the new content as a second blob and returns the insert's UNIQUE violation,
which is not the hash-mismatch error of line 104; the blob stored under the
recorded hash and the catalog row are as before. -/
theorem Put_drift_not_reported :
    exampleIndex.Put exampleEnv (exampleRemote (asciiBytes "abc")) emptyState
        "0000000001" "edgar/data/1/a.txt" "10-K" "2020-01-01" = .ret (ingestedState, none)
      ∧ exampleEnv.sha256Hex (asciiBytes "abd") ≠ exampleEnv.sha256Hex (asciiBytes "abc")
      ∧ ingestedState.db.lookup "edgar/data/1/a.txt" = ("", some .ErrNoRows)
      ∧ lookupHashSpec ingestedState.db.filings "edgar/data/1/a.txt"
          = some "ba7816bf8f01cfea414140de5dae2223b00361a396177a9cb410ff61f20015ad"
      ∧ exampleIndex.Put exampleEnv (exampleRemote (asciiBytes "abd")) ingestedState
          "0000000001" "edgar/data/1/a.txt" "10-K" "2020-01-01"
        = .ret (⟨ingestedState.fsys ++
              [(utf8
                "data/edgar/a5/a52d159f262b2c6ddb724a61840befc36eb30c88877a4030b65cbe86298449c9",
                asciiBytes "abd")], ingestedState.db⟩,
            some (.sqlite "UNIQUE constraint failed: filings.source_path"))
      ∧ GoError.sqlite "UNIQUE constraint failed: filings.source_path"
          ≠ hashMismatch "edgar/data/1/a.txt"
              "ba7816bf8f01cfea414140de5dae2223b00361a396177a9cb410ff61f20015ad"
              "a52d159f262b2c6ddb724a61840befc36eb30c88877a4030b65cbe86298449c9" := by
  refine ⟨by decide, by decide, by decide, by decide, by decide, ?_⟩
  simp [hashMismatch]

theorem sqlLe_refl (a : SqlValue) : SqlValue.le a a = true := by
  cases a <;> simp [SqlValue.le]

theorem sqlLe_total (a b : SqlValue) : SqlValue.le a b = true ∨ SqlValue.le b a = true := by
  cases a <;> cases b <;> simp [SqlValue.le, le_total]

theorem sqlLe_trans (a b c : SqlValue) (hab : SqlValue.le a b = true)
    (hbc : SqlValue.le b c = true) : SqlValue.le a c = true := by
  cases a <;> cases b <;> cases c <;> simp_all [SqlValue.le]
  · exact le_trans hab hbc
  · exact le_trans hab hbc

theorem sqlLe_antisymm (a b : SqlValue) (hab : SqlValue.le a b = true)
    (hba : SqlValue.le b a = true) : a = b := by
  cases a <;> cases b <;> simp_all [SqlValue.le]
  · exact le_antisymm hab hba
  · exact String.ext (le_antisymm hab hba)

theorem sqlMax_mem (v : SqlValue) (vs : List SqlValue) : sqlMax v vs ∈ v :: vs := by
  induction vs generalizing v with
  | nil => simp [sqlMax]
  | cons w vs ih =>
    have h := ih (if SqlValue.le v w then w else v)
    simp only [sqlMax, List.foldl_cons] at h ⊢
    rcases List.mem_cons.mp h with h | h
    · rw [h]
      split <;> simp
    · exact List.mem_cons_of_mem _ (List.mem_cons_of_mem _ h)

theorem sqlMax_ge (v : SqlValue) (vs : List SqlValue) :
    ∀ w ∈ v :: vs, SqlValue.le w (sqlMax v vs) = true := by
  induction vs generalizing v with
  | nil =>
    intro w hw
    simp only [List.mem_singleton] at hw
    simp [sqlMax, hw, sqlLe_refl]
  | cons u vs ih =>
    intro w hw
    have h := ih (if SqlValue.le v u then u else v)
    simp only [sqlMax, List.foldl_cons] at h ⊢
    have hv : SqlValue.le v (if SqlValue.le v u then u else v) = true := by
      split
      · assumption
      · exact sqlLe_refl _
    have hu : SqlValue.le u (if SqlValue.le v u then u else v) = true := by
      split
      · exact sqlLe_refl _
      · rename_i hn
        rcases sqlLe_total v u with h' | h'
        · exact absurd h' hn
        · exact h'
    rcases List.mem_cons.mp hw with rfl | hw
    · exact sqlLe_trans _ _ _ hv (h _ (List.mem_cons_self _ _))
    · rcases List.mem_cons.mp hw with rfl | hw
      · exact sqlLe_trans _ _ _ hu (h _ (List.mem_cons_self _ _))
      · exact h w (List.mem_cons_of_mem _ hw)

theorem latestMatch_iff (filings : List Row) (pattern : String) (r : Row) :
    latestMatch filings pattern r = true ↔
      sqlLike pattern.data r.form.data = true ∧
        ∀ g ∈ filings, g.cik = r.cik → sqlLike pattern.data g.form.data = true →
          SqlValue.le g.filed_on r.filed_on = true := by
  simp only [latestMatch, Bool.and_eq_true, List.all_eq_true, Bool.or_eq_true, Bool.not_eq_true',
    Bool.and_eq_false_imp, decide_eq_true_eq]
  constructor
  · rintro ⟨h1, h2⟩
    refine ⟨h1, fun g hg hc hl => ?_⟩
    rcases h2 g hg with h | h
    · have := h hc
      rw [hl] at this
      exact absurd this (by simp)
    · exact h
  · rintro ⟨h1, h2⟩
    refine ⟨h1, fun g hg => ?_⟩
    by_cases hc : g.cik = r.cik
    · cases hl : sqlLike pattern.data g.form.data with
      | true => exact Or.inr (h2 g hg hc hl)
      | false => exact Or.inl (fun _ => rfl)
    · exact Or.inl (fun h => absurd h hc)

theorem filter_filterMap_key (keys : List String) (G : String → Option (String × SqlValue))
    (hG : ∀ k g, G k = some g → g.1 = k) (c : String) :
    (keys.filterMap G).filter (fun g => decide (g.1 = c)) =
      (keys.filter (fun k => decide (k = c))).filterMap G := by
  induction keys with
  | nil => rfl
  | cons k ks ih =>
    cases hk : G k with
    | none =>
      rw [List.filterMap_cons_none hk, ih]
      by_cases hkc : k = c
      · rw [List.filter_cons_of_pos (by simpa using hkc), List.filterMap_cons_none hk]
      · rw [List.filter_cons_of_neg (by simpa using hkc)]
    | some g =>
      have hg := hG k g hk
      rw [List.filterMap_cons_some hk]
      by_cases hkc : k = c
      · rw [List.filter_cons_of_pos (by simpa [hg] using hkc),
          List.filter_cons_of_pos (by simpa using hkc), List.filterMap_cons_some hk, ih]
      · rw [List.filter_cons_of_neg (by simpa [hg] using hkc),
          List.filter_cons_of_neg (by simpa using hkc), ih]

theorem nodup_filter_eq (keys : List String) (h : keys.Nodup) (c : String) :
    keys.filter (fun k => decide (k = c)) = if c ∈ keys then [c] else [] := by
  induction keys with
  | nil => rfl
  | cons k ks ih =>
    have hnd := List.nodup_cons.mp h
    by_cases hkc : k = c
    · subst hkc
      rw [List.filter_cons_of_pos (by simp), ih hnd.2]
      simp [hnd.1]
    · rw [List.filter_cons_of_neg (by simpa using hkc), ih hnd.2]
      have hck : ¬ c = k := fun e => hkc e.symm
      simp [hck]

/-- The group of entity `c` in the sub-select: its `MaxFiledOn` is the filing
date of a matching record of `c` and no matching record of `c` is later. -/
theorem latestFormQuery.x_group (filings : List Row) (p1 c : String) :
    ((latestFormQuery.x filings p1).filter (fun g => decide (g.1 = c)) = [] ∧
        (∀ r ∈ filings, r.cik = c → sqlLike p1.data r.form.data = false))
      ∨ ∃ m, (latestFormQuery.x filings p1).filter (fun g => decide (g.1 = c)) = [(c, m)] ∧
          (∃ r ∈ filings, r.cik = c ∧ sqlLike p1.data r.form.data = true ∧ r.filed_on = m) ∧
          (∀ r ∈ filings, r.cik = c → sqlLike p1.data r.form.data = true →
            SqlValue.le r.filed_on m = true) := by
  unfold latestFormQuery.x
  simp only []
  have hperm := List.perm_insertionSort (fun a b : String => a.data ≤ b.data)
    ((filings.filter (fun r => sqlLike p1.data r.form.data)).map (fun r => r.cik)).dedup
  rw [filter_filterMap_key _ _ _ c,
    nodup_filter_eq _ (hperm.nodup_iff.mpr (List.nodup_dedup _)) c]
  · by_cases hc : c ∈ (((filings.filter (fun r => sqlLike p1.data r.form.data)).map
        (fun r => r.cik)).dedup.insertionSort (fun a b : String => a.data ≤ b.data))
    · right
      rw [if_pos hc]
      rw [hperm.mem_iff] at hc
      simp only [List.mem_dedup, List.mem_map, List.mem_filter] at hc
      obtain ⟨r0, ⟨hr0, hl0⟩, hc0⟩ := hc
      have hmem0 : r0.filed_on ∈ ((filings.filter (fun r => sqlLike p1.data r.form.data)).filter
          (fun r => decide (r.cik = c))).map (fun r => r.filed_on) := by
        simp only [List.mem_map, List.mem_filter, decide_eq_true_eq]
        exact ⟨r0, ⟨⟨hr0, hl0⟩, hc0⟩, rfl⟩
      cases hgrp : ((filings.filter (fun r => sqlLike p1.data r.form.data)).filter
          (fun r => decide (r.cik = c))).map (fun r => r.filed_on) with
      | nil =>
        rw [hgrp] at hmem0
        exact absurd hmem0 (List.not_mem_nil _)
      | cons v vs =>
        refine ⟨sqlMax v vs, ?_, ?_, ?_⟩
        · simp only [List.filterMap_cons, List.filterMap_nil, hgrp]
        · have hm := sqlMax_mem v vs
          rw [← hgrp] at hm
          simp only [List.mem_map, List.mem_filter, decide_eq_true_eq] at hm
          obtain ⟨r, ⟨⟨hr, hl⟩, hrc⟩, hrm⟩ := hm
          exact ⟨r, hr, hrc, hl, hrm⟩
        · intro r hr hrc hl
          apply sqlMax_ge v vs
          rw [← hgrp]
          simp only [List.mem_map, List.mem_filter, decide_eq_true_eq]
          exact ⟨r, ⟨⟨hr, hl⟩, hrc⟩, rfl⟩
    · left
      rw [if_neg hc]
      refine ⟨rfl, fun r hr hrc => ?_⟩
      cases hl : sqlLike p1.data r.form.data with
      | false => rfl
      | true =>
        exfalso
        apply hc
        rw [hperm.mem_iff]
        simp only [List.mem_dedup, List.mem_map, List.mem_filter]
        exact ⟨r, ⟨hr, hl⟩, hrc⟩
  · intro k g hk
    split at hk
    · simp at hk
    · simp only [Option.some.injEq] at hk
      rw [← hk]

theorem flatMap_filter_key (env : Env) (filings : List Row) (p2 c : String)
    (x : List (String × SqlValue)) :
    (x.flatMap fun g =>
        (filings.filter (fun f =>
          f.cik = g.1 ∧ f.filed_on = g.2 ∧ sqlLike p2.data f.form.data)).map
            (Row.toFiling env)).filter
        (fun f => decide (f.CIK = c)) =
      (x.filter (fun g => decide (g.1 = c))).flatMap fun g =>
        (filings.filter (fun f =>
          f.cik = g.1 ∧ f.filed_on = g.2 ∧ sqlLike p2.data f.form.data)).map
            (Row.toFiling env) := by
  induction x with
  | nil => rfl
  | cons g x ih =>
    rw [List.flatMap_cons, List.filter_append, ih]
    by_cases hg : g.1 = c
    · rw [List.filter_cons_of_pos (by simpa using hg), List.flatMap_cons]
      congr 1
      rw [List.filter_eq_self]
      intro f hf
      simp only [List.mem_map, List.mem_filter, decide_eq_true_eq] at hf
      obtain ⟨r, ⟨_, hrc, _⟩, rfl⟩ := hf
      simpa [Row.toFiling, hrc] using hg
    · rw [List.filter_cons_of_neg (by simpa using hg)]
      have hnil : ((filings.filter (fun f =>
          f.cik = g.1 ∧ f.filed_on = g.2 ∧ sqlLike p2.data f.form.data)).map
            (Row.toFiling env)).filter (fun f => decide (f.CIK = c)) = [] := by
        rw [List.filter_eq_nil_iff]
        intro f hf
        simp only [List.mem_map, List.mem_filter, decide_eq_true_eq] at hf
        obtain ⟨r, ⟨_, hrc, _⟩, rfl⟩ := hf
        simpa [Row.toFiling, hrc] using hg
      rw [hnil, List.nil_append]

/-- The rows of `latestFormQuery` for entity `c`: the latest matching records
of `c`, in table order, as scanned. -/
theorem latestFormQuery_entity (env : Env) (filings : List Row) (p c : String) :
    (latestFormQuery env filings p p).filter (fun f => decide (f.CIK = c)) =
      (filings.filter (fun r => decide (r.cik = c) && latestMatch filings p r)).map
        (Row.toFiling env) := by
  unfold latestFormQuery
  rw [flatMap_filter_key]
  rcases latestFormQuery.x_group filings p c with
    ⟨hx, hnone⟩ | ⟨m, hx, ⟨r0, hr0, hc0, hl0, hm0⟩, hmax⟩
  · rw [hx]
    have hnil : filings.filter (fun r => decide (r.cik = c) && latestMatch filings p r) = [] := by
      rw [List.filter_eq_nil_iff]
      intro r hr hp
      simp only [Bool.and_eq_true, decide_eq_true_eq] at hp
      have hl := ((latestMatch_iff filings p r).mp hp.2).1
      rw [hnone r hr hp.1] at hl
      exact absurd hl (by simp)
    rw [hnil]
    rfl
  · rw [hx, List.flatMap_cons, List.flatMap_nil, List.append_nil]
    congr 1
    apply List.filter_congr
    intro r hr
    by_cases hrc : r.cik = c
    · have hiff : (r.filed_on = m ∧ sqlLike p.data r.form.data = true) ↔
          latestMatch filings p r = true := by
        rw [latestMatch_iff]
        constructor
        · rintro ⟨hrm, hl⟩
          refine ⟨hl, fun g hg hgc hgl => ?_⟩
          rw [hrm]
          exact hmax g hg (hgc.trans hrc) hgl
        · rintro ⟨hl, hall⟩
          refine ⟨?_, hl⟩
          have h1 : SqlValue.le r.filed_on m = true := hmax r hr hrc hl
          have h2 : SqlValue.le m r.filed_on = true := by
            rw [← hm0]
            exact hall r0 hr0 (hc0.trans hrc.symm) hl0
          exact sqlLe_antisymm _ _ h1 h2
      by_cases hlm : latestMatch filings p r = true
      · have := hiff.mpr hlm
        simp [hrc, hlm, this.1, this.2]
      · have hn : ¬ (r.filed_on = m ∧ sqlLike p.data r.form.data = true) := fun h =>
          hlm (hiff.mp h)
        have hlm' : latestMatch filings p r = false := by simpa using hlm
        simp only [hrc, hlm', Bool.and_false, decide_eq_false_iff_not, true_and]
        exact hn
    · simp [hrc]

theorem sqlLike_of_prefix (p t : List Char) : sqlLike (p ++ ['%']) (p ++ t) = true := by
  induction p with
  | nil =>
    simp only [List.nil_append, sqlLike, if_true, List.any_eq_true]
    exact ⟨[], (List.mem_tails [] t).mpr List.nil_suffix, by simp [sqlLike]⟩
  | cons c p ih =>
    simp only [List.cons_append, sqlLike]
    split
    · simp only [List.any_eq_true]
      exact ⟨p ++ t, (List.mem_tails _ _).mpr (List.suffix_cons c (p ++ t)), ih⟩
    · simp [ih]

theorem filter_eq_singleton {α : Type} (P : α → Bool) (r : α) (l : List α) (hnd : l.Nodup)
    (hr : r ∈ l) (hP : ∀ x ∈ l, P x = true ↔ x = r) : l.filter P = [r] := by
  induction l with
  | nil => simp at hr
  | cons a l ih =>
    have hnd' := List.nodup_cons.mp hnd
    by_cases har : a = r
    · subst har
      rw [List.filter_cons_of_pos ((hP a (List.mem_cons_self _ _)).mpr rfl)]
      congr 1
      rw [List.filter_eq_nil_iff]
      intro x hx hpx
      have := (hP x (List.mem_cons_of_mem _ hx)).mp hpx
      exact hnd'.1 (this ▸ hx)
    · have hPa : ¬ P a = true := fun h => har ((hP a (List.mem_cons_self _ _)).mp h)
      rw [List.filter_cons_of_neg hPa]
      have hr' : r ∈ l := by
        rcases List.mem_cons.mp hr with h | h
        · exact absurd h.symm har
        · exact h
      exact ih hnd'.2 hr' (fun x hx => hP x (List.mem_cons_of_mem _ hx))

/-- C1 (amended): the rows that `MostRecentOfType(form)` streams are the
result of `latestFormQuery` with the pattern `form%` twice, each record
scanned into a `Filing`. For every entity they hold exactly the records of
that entity whose form matches the pattern under SQLite's `LIKE` and whose
stored filing date is the maximum, in SQLite's order of values, among the
entity's matching records, in table order: at least one row for every entity
with a matching record (every form that starts with the prefix matches), no
row for an entity without one, and exactly one row where a single record
attains the maximum. Records (E1, "10-K", 2020-01-01) and
(E1, "10-K/A", 2021-01-01) queried with "10-K" give one row, the record of
2021-01-01, which the handler receives with `FiledOn` "2021-01-01T00:00:00Z". -/
theorem latestFormQuery_latest_per_entity (env : Env) (filings : List Row) (form : String) :
    DB.Query env ⟨filings, false⟩ (form ++ "%") (form ++ "%") =
        .ok ((latestFormQuery env filings (form ++ "%") (form ++ "%")).map .ok)
      ∧ (∀ c, (latestFormQuery env filings (form ++ "%") (form ++ "%")).filter
            (fun f => decide (f.CIK = c)) =
          (filings.filter (fun r =>
            decide (r.cik = c) && latestMatch filings (form ++ "%") r)).map (Row.toFiling env))
      ∧ (∀ r ∈ filings, sqlLike (form ++ "%").data r.form.data = true →
          ∃ f ∈ latestFormQuery env filings (form ++ "%") (form ++ "%"), f.CIK = r.cik)
      ∧ (∀ r ∈ filings, form.data <+: r.form.data →
          ∃ f ∈ latestFormQuery env filings (form ++ "%") (form ++ "%"), f.CIK = r.cik)
      ∧ (∀ f ∈ latestFormQuery env filings (form ++ "%") (form ++ "%"),
          ∃ r ∈ filings, f = r.toFiling env ∧ sqlLike (form ++ "%").data r.form.data = true ∧
            ∀ g ∈ filings, g.cik = r.cik → sqlLike (form ++ "%").data g.form.data = true →
              SqlValue.le g.filed_on r.filed_on = true)
      ∧ (∀ r ∈ filings, (filings.map (fun g => g.source_path)).Nodup →
          sqlLike (form ++ "%").data r.form.data = true →
          (∀ g ∈ filings, g.cik = r.cik → sqlLike (form ++ "%").data g.form.data = true →
            g ≠ r → SqlValue.le r.filed_on g.filed_on = false) →
          (latestFormQuery env filings (form ++ "%") (form ++ "%")).filter
            (fun f => decide (f.CIK = r.cik)) = [r.toFiling env])
      ∧ ((DB.insrtExec exampleEnv
            (DB.insrtExec exampleEnv ⟨[], false⟩ "E1" "2020-01-01" "h1" "10-K" "l1").1
            "E1" "2021-01-01" "h2" "10-K/A" "l2").1.filings
          = [⟨"E1", .text "2020-01-01", "h1", "10-K", "l1"⟩,
             ⟨"E1", .text "2021-01-01", "h2", "10-K/A", "l2"⟩]
        ∧ latestFormQuery exampleEnv
            [⟨"E1", .text "2020-01-01", "h1", "10-K", "l1"⟩,
             ⟨"E1", .text "2021-01-01", "h2", "10-K/A", "l2"⟩]
            ("10-K" ++ "%") ("10-K" ++ "%")
          = [⟨"2021-01-01T00:00:00Z", "E1", "10-K/A", "h2", "l2"⟩]) := by
  have hrows := latestFormQuery_entity env filings (form ++ "%")
  have hex : ∀ r ∈ filings, sqlLike (form ++ "%").data r.form.data = true →
      ∃ f ∈ latestFormQuery env filings (form ++ "%") (form ++ "%"), f.CIK = r.cik := by
    intro r hr hl
    rcases latestFormQuery.x_group filings (form ++ "%") r.cik with
      ⟨_, hnone⟩ | ⟨m, _, ⟨r0, hr0, hc0, hl0, hm0⟩, hmax⟩
    · rw [hnone r hr rfl] at hl
      exact absurd hl (by simp)
    · have hmem : r0.toFiling env ∈
          (latestFormQuery env filings (form ++ "%") (form ++ "%")).filter
            (fun f => decide (f.CIK = r.cik)) := by
        rw [hrows r.cik]
        apply List.mem_map_of_mem
        rw [List.mem_filter]
        refine ⟨hr0, ?_⟩
        simp only [Bool.and_eq_true, decide_eq_true_eq]
        refine ⟨hc0, (latestMatch_iff filings (form ++ "%") r0).mpr
          ⟨hl0, fun g hg hgc hgl => ?_⟩⟩
        rw [hm0]
        exact hmax g hg (hgc.trans hc0) hgl
      exact ⟨r0.toFiling env, (List.mem_filter.mp hmem).1, hc0⟩
  refine ⟨by simp [DB.Query], hrows, hex, ?_, ?_, ?_, by decide, by decide⟩
  · intro r hr hpre
    apply hex r hr
    obtain ⟨t, ht⟩ := hpre
    rw [← ht, String.data_append]
    exact sqlLike_of_prefix form.data t
  · intro f hf
    have hmem : f ∈ (latestFormQuery env filings (form ++ "%") (form ++ "%")).filter
        (fun g => decide (g.CIK = f.CIK)) := List.mem_filter.mpr ⟨hf, by simp⟩
    rw [hrows f.CIK] at hmem
    simp only [List.mem_map, List.mem_filter, Bool.and_eq_true, decide_eq_true_eq] at hmem
    obtain ⟨r, ⟨hr, _, hlm⟩, hrf⟩ := hmem
    have h := (latestMatch_iff filings (form ++ "%") r).mp hlm
    exact ⟨r, hr, hrf.symm, h.1, h.2⟩
  · intro r hr hnd hl hstrict
    rw [hrows r.cik]
    rw [filter_eq_singleton _ r filings (List.Nodup.of_map _ hnd) hr]
    · rfl
    intro x hx
    simp only [Bool.and_eq_true, decide_eq_true_eq]
    rw [latestMatch_iff]
    constructor
    · rintro ⟨hxc, hxl, hxall⟩
      by_contra hne
      have h1 := hstrict x hx hxc hxl hne
      have h2 := hxall r hr hxc.symm hl
      rw [h1] at h2
      exact absurd h2 (by simp)
    · rintro rfl
      refine ⟨rfl, hl, fun g hg hgc hgl => ?_⟩
      by_cases hgx : g = x
      · rw [hgx]
        exact sqlLe_refl _
      · rcases sqlLe_total g.filed_on x.filed_on with h | h
        · exact h
        · rw [hstrict g hg hgc hgl hgx] at h
          exact absurd h (by simp)

/-- C1 as stated fails. Two records of E1 with forms "10-K" and "10-K/A" filed
on the same day, 2021-01-01, queried with "10-K", give two rows for E1, not
one; and a record of E1 with form "10-K", which does not start with the prefix
"10-k", gives a row when queried with "10-k", since `LIKE` disregards ASCII
case. -/
theorem latestFormQuery_counterexample :
    latestFormQuery exampleEnv
        [⟨"E1", .text "2021-01-01", "h1", "10-K", "l1"⟩,
         ⟨"E1", .text "2021-01-01", "h2", "10-K/A", "l2"⟩]
        ("10-K" ++ "%") ("10-K" ++ "%")
      = [⟨"2021-01-01T00:00:00Z", "E1", "10-K", "h1", "l1"⟩,
         ⟨"2021-01-01T00:00:00Z", "E1", "10-K/A", "h2", "l2"⟩]
      ∧ ¬ ("10-k".data <+: "10-K".data)
      ∧ latestFormQuery exampleEnv [⟨"E1", .text "2021-01-01", "h1", "10-K", "l1"⟩]
          ("10-k" ++ "%") ("10-k" ++ "%")
        = [⟨"2021-01-01T00:00:00Z", "E1", "10-K", "h1", "l1"⟩] := by
  refine ⟨by decide, by decide, by decide⟩

end Filings
